import Mathlib

/-!
# market-data-ingestor-go: egress transform, validation, reconnect backoff, batching, flush,
sinks, broadcaster and registry

A shallow embedding of the parts of the repository that its specification makes
claims about:

* `internal/app/models/market_data.go`        : `MarketData`, `Validate`
* `internal/app/dto/client.go`                : `SymbolConfig`, `ValueRule`
* `internal/app/services/websocket/server.go` : `normalizeMarketData`, `transformFlat`,
  `applyValueRule`
* `internal/app/services/websocket/ingestor.go` : the reconnect backoff of `Ingestor.Start`
* `cmd/processor/processor.go`                : `Processor.worker`, `Processor.flush`
* `internal/app/services/storage/postgres.go` : `Store.InsertBatch`
* `internal/app/services/storage/cache_service.go` : `CacheService.InsertBatch`
* `internal/app/services/websocket/server.go`, `client.go` : `Client`, the registry,
  `Server.broadcaster`, `Server.getOrCreateClient`

Modelling conventions.

* Go `string` is `String`; `int64` (a timestamp, a `time.Duration` in nanoseconds) and `int`
  are `Int` or `Nat`; no arithmetic in the modelled code can leave the 64-bit range.
* Go `float64` is an abstract carrier `F` with the four operations the code uses and the
  test `x != 0` (class `Float64`).  Every theorem holds for every such carrier; the
  rationals are the instance used to evaluate concrete inputs.
* A Go map that the code only indexes, assigns to and deletes from (`map[string]interface{}`:
  `MarketData.Data`, `dto.FlatMarketData`, a decoded JSON object) is its lookup function
  `String → Option V`.
* A Go map that the code ranges over (the three maps of `SymbolConfig`) is the list of its
  entries in the order in which the runtime happens to visit them, with pairwise distinct
  keys (`GoMap`).  A theorem about `GoMap`s therefore speaks about every iteration order.
* `time.Now().UnixMilli()` is an explicit clock reading `now : Int`.
* What the outside world answers is an explicit argument: the outcome of each sink call of a
  flush, the errors of the database calls of `Store.InsertBatch` and of `pipe.Exec`, the
  outcome of each `WriteJSON` of the broadcaster.  `json.Marshal` is an argument too: the
  encoded text, or `none` for the error it returns on a value it cannot encode.
* A `*websocket.Conn` is a number; the registry `sync.Map` is the list of its entries in the
  order in which `Range` visits them, and the code is run sequentially.
-/

namespace MarketDataIngestor

/-! ## Data model -/

/-- Go `float64` as the egress transform uses it: `+`, `-`, `*`, `/` and the comparison
`x != 0`, of which the only fact used is that the constant `0` does not differ from `0`. -/
class Float64 (F : Type) extends Add F, Sub F, Mul F, Div F, Zero F where
  /-- Go `x != 0`. -/
  neZero : F → Bool
  /-- The constant `0` compares equal to `0`. -/
  neZero_zero : neZero 0 = false

/-- Exact rational arithmetic; used to evaluate the model on concrete inputs. -/
instance instFloat64Rat : Float64 ℚ where
  neZero x := decide (x ≠ 0)
  neZero_zero := by simp

/-- A dynamically typed Go value (`interface{}`) as it occurs in decoded JSON and in the flat
map: JSON numbers decode to `float64`, while `normalizeMarketData` stores the record's
timestamp as an `int64`. -/
inductive Value (F : Type) where
  | null : Value F
  | bool (b : Bool) : Value F
  | float64 (x : F) : Value F
  | int64 (i : Int) : Value F
  | string (s : String) : Value F
  | array (xs : List (Value F)) : Value F
  | object (m : String → Option (Value F)) : Value F

/-- Go `v == s` for an `interface{}` value `v` and a string constant `s`: true exactly when the
dynamic type of `v` is `string` and the strings are equal. -/
def Value.eqString {F : Type} : Value F → String → Bool
  | Value.string t, s => decide (t = s)
  | _, _ => false

/-- A `map[string]interface{}` accessed by key.  `dto.FlatMarketData` is such a map: the code
builds it with `maps.Copy` from a `map[string]interface{}` and type-asserts its values. -/
abbrev FlatMarketData (F : Type) := String → Option (Value F)

/-- The empty map (`dto.FlatMarketData{}`, also a nil map). -/
def FlatMarketData.empty {F : Type} : FlatMarketData F := fun _ => none

/-- Go `data[k] = v`. -/
def FlatMarketData.set {F : Type} (data : FlatMarketData F) (k : String) (v : Value F) :
    FlatMarketData F :=
  fun k' => if k' = k then some v else data k'

/-- Go `delete(data, k)`. -/
def FlatMarketData.delete {F : Type} (data : FlatMarketData F) (k : String) :
    FlatMarketData F :=
  fun k' => if k' = k then none else data k'

/-- Go `maps.Copy(dst, src)`: every entry of `src` is written into `dst`, overwriting. -/
def FlatMarketData.copy {F : Type} (dst src : FlatMarketData F) : FlatMarketData F :=
  fun k => match src k with
    | some v => some v
    | none => dst k

/-- The map with the listed entries (an earlier entry wins); used to write concrete maps. -/
def FlatMarketData.ofList {F : Type} (l : List (String × Value F)) : FlatMarketData F :=
  fun k => l.lookup k

/-- A Go map that the code ranges over: its entries in iteration order, keys distinct. -/
structure GoMap (V : Type) where
  entries : List (String × V)
  nodup : (entries.map Prod.fst).Nodup

/-- The empty (or nil) map: ranging over it runs no iteration. -/
def GoMap.empty {V : Type} : GoMap V := ⟨[], List.nodup_nil⟩

/-- The map with one entry. -/
def GoMap.single {V : Type} (k : String) (v : V) : GoMap V :=
  ⟨[(k, v)], by simp⟩

/-- Go `m[k]` with the comma-ok form. -/
def GoMap.get {V : Type} (m : GoMap V) (k : String) : Option V := m.entries.lookup k

/-- The keys of the map. -/
def GoMap.keys {V : Type} (m : GoMap V) : List String := m.entries.map Prod.fst

/-- `models.MarketData`. -/
structure MarketData (F : Type) where
  Name : String
  Timestamp : Int
  Exchange : String
  Data : String → Option (Value F)

/-- `dto.ValueRule`. -/
structure ValueRule (F : Type) where
  Op : String
  Value : F

/-- `dto.SymbolConfig`. -/
structure SymbolConfig (F : Type) where
  RenameFields : GoMap String
  ValueRules : GoMap (ValueRule F)
  OverrideFields : GoMap (Value F)
  RemoveFields : List String
  UseCurrentTS : Bool

/-! ## `models.MarketData.Validate` -/

/-- `(*MarketData).Validate`: `none` is the nil error, `some msg` the error with that text. -/
def MarketData.Validate {F : Type} (m : MarketData F) : Option String :=
  if m.Name = "" then some "name is required"
  else if m.Timestamp ≤ 0 then some "invalid timestamp"
  else none

/-! ## `normalizeMarketData`, `applyValueRule`, `transformFlat` -/

/-- `normalizeMarketData` of `server.go`. -/
def normalizeMarketData {F : Type} (item : MarketData F) : FlatMarketData F :=
  let out : FlatMarketData F := FlatMarketData.empty
  let out := match item.Data "data" with
    | some (Value.object inner) => out.copy inner
    | _ => out
  let out := out.set "symbol" (Value.string item.Name)
  let out := out.set "timestamp" (Value.int64 item.Timestamp)
  let out := out.set "exchange" (Value.string item.Exchange)
  out

/-- `applyValueRule` of `server.go`. -/
def applyValueRule {F : Type} [Float64 F] (num : F) (rule : ValueRule F) : F :=
  if rule.Op = "add" then num + rule.Value
  else if rule.Op = "subtract" then num - rule.Value
  else if rule.Op = "multiply" then num * rule.Value
  else if rule.Op = "divide" then
    if Float64.neZero rule.Value then num / rule.Value else num
  else num

/-- Body of the loop `for field, rule := range cfg.ValueRules`. -/
def valueRuleStep {F : Type} [Float64 F] (data : FlatMarketData F)
    (e : String × ValueRule F) : FlatMarketData F :=
  match data e.1 with
  | some (Value.float64 v) => data.set e.1 (Value.float64 (applyValueRule v e.2))
  | _ => data

/-- Body of the loop `for oldKey, newKey := range cfg.RenameFields`. -/
def renameStep {F : Type} (data : FlatMarketData F) (e : String × String) :
    FlatMarketData F :=
  match data e.1 with
  | some v => (data.set e.2 v).delete e.1
  | none => data

/-- Body of the loop `for _, field := range cfg.RemoveFields`. -/
def removeStep {F : Type} (data : FlatMarketData F) (field : String) : FlatMarketData F :=
  data.delete field

/-- Body of the loop `for k, v := range cfg.OverrideFields`. -/
def overrideStep {F : Type} (now : Int) (data : FlatMarketData F) (e : String × Value F) :
    FlatMarketData F :=
  if e.1 = "timestamp" ∧ e.2.eqString "current" = true then data.set e.1 (Value.int64 now)
  else data.set e.1 e.2

/-- `transformFlat` of `server.go`, at clock reading `now`. -/
def transformFlat {F : Type} [Float64 F] (now : Int) (data : FlatMarketData F)
    (cfg : SymbolConfig F) : FlatMarketData F :=
  let data := cfg.ValueRules.entries.foldl valueRuleStep data
  let data := cfg.RenameFields.entries.foldl renameStep data
  let data := cfg.RemoveFields.foldl removeStep data
  let data := cfg.OverrideFields.entries.foldl (overrideStep now) data
  data

/-- The nested object `item.Data["data"]` when that entry exists and is an object, and the
empty map otherwise. -/
def innerData {F : Type} (item : MarketData F) : FlatMarketData F :=
  match item.Data "data" with
  | some (Value.object inner) => inner
  | _ => FlatMarketData.empty

/-- A map overlaid with `symbol`, `timestamp` and `exchange`, as the specification words
normalization. -/
def overlayIdentity {F : Type} (M : FlatMarketData F) (name : String) (timestamp : Int)
    (exchange : String) : FlatMarketData F :=
  fun k =>
    if k = "symbol" then some (Value.string name)
    else if k = "timestamp" then some (Value.int64 timestamp)
    else if k = "exchange" then some (Value.string exchange)
    else M k

/-! ## The four phases as the specification words them -/

/-- Value rules: a field that holds a number and has a rule is replaced by the rule's result;
every other field is passed through. -/
def specValueRules {F : Type} [Float64 F] (rules : GoMap (ValueRule F))
    (m : FlatMarketData F) : FlatMarketData F :=
  fun k => match m k, rules.get k with
    | some (Value.float64 x), some r => some (Value.float64 (applyValueRule x r))
    | v, _ => v

/-- Renames: the value of an existing `old` appears under `new`, and `old` is gone. -/
def specRename {F : Type} (ren : GoMap String) (m : FlatMarketData F) : FlatMarketData F :=
  fun k => match ren.entries.find? (fun e => decide (e.2 = k) && (m e.1).isSome) with
    | some e => m e.1
    | none => if (ren.get k).isSome then none else m k

/-- Removals: every listed field is gone. -/
def specRemove {F : Type} (fields : List String) (m : FlatMarketData F) : FlatMarketData F :=
  fun k => if k ∈ fields then none else m k

/-- Overrides: every entry `(k, v)` is written literally. -/
def specOverride {F : Type} (ov : GoMap (Value F)) (m : FlatMarketData F) : FlatMarketData F :=
  fun k => match ov.get k with
    | some v => some v
    | none => m k

/-- A rename map is collision-free: no rename target is another rename's target, and no
rename target is a rename source (of another rename, or of itself). -/
def CollisionFree (ren : GoMap String) : Prop :=
  (ren.entries.map Prod.snd).Nodup ∧ ∀ e ∈ ren.entries, e.2 ∉ ren.keys

/-- The override map has the sentinel entry `("timestamp", "current")`. -/
def HasCurrentTimestamp {F : Type} (ov : GoMap (Value F)) : Prop :=
  ∃ v, ("timestamp", v) ∈ ov.entries ∧ v.eqString "current" = true

/-! ## `Ingestor.Start`: the reconnect backoff -/

/-- Go `time.Second`: a `time.Duration` counts nanoseconds. -/
def Second : Int := 1000000000

/-- What one pass of the connect loop of `Ingestor.Start` meets: the dial fails, or it succeeds
(whatever happens to the connection afterwards, the loop is re-entered). -/
inductive DialOutcome where
  | failed : DialOutcome
  | connected : DialOutcome

/-- The local variable `backoff` of `Ingestor.Start` and the durations passed to `time.Sleep`
so far, oldest first. -/
structure IngestorState where
  backoff : Int
  slept : List Int

/-- One pass of the loop of `Ingestor.Start`.  After a failed dial: `time.Sleep(backoff)`, then
`if backoff < 30*time.Second { backoff *= 2 }`.  After a successful dial:
`backoff = time.Second`.  The doubling is taken only below `30 s`, so it cannot overflow. -/
def Ingestor.step (s : IngestorState) : DialOutcome → IngestorState
  | DialOutcome.failed =>
      { backoff := if s.backoff < 30 * Second then s.backoff * 2 else s.backoff,
        slept := s.slept ++ [s.backoff] }
  | DialOutcome.connected => { s with backoff := Second }

/-- The connect loop of `Ingestor.Start` over a sequence of dial outcomes, entered with
`backoff := time.Second`. -/
def Ingestor.Start (outcomes : List DialOutcome) : IngestorState :=
  outcomes.foldl Ingestor.step { backoff := Second, slept := [] }

/-! ## `Processor.worker` -/

/-- The three cases of the `select` in `Processor.worker`. -/
inductive WorkerEvent (α : Type) where
  | shutdown : WorkerEvent α
  | message (d : α) : WorkerEvent α
  | tick : WorkerEvent α

/-- State of one worker: the local slice `batch`, the arguments of the calls of `p.flush` made
so far (oldest first), and whether the loop is still running. -/
structure WorkerState (α : Type) where
  batch : List α
  flushed : List (List α)
  running : Bool

/-- The state in which `Processor.worker` enters its loop: `batch` is empty. -/
def WorkerState.init {α : Type} : WorkerState α :=
  { batch := [], flushed := [], running := true }

/-- One iteration of the loop of `Processor.worker`; a worker that has returned ignores every
further event. -/
def workerStep {α : Type} (batchSize : Nat) (s : WorkerState α) (e : WorkerEvent α) :
    WorkerState α :=
  if s.running then
    match e with
    | WorkerEvent.shutdown =>
        if s.batch.length > 0 then
          { s with flushed := s.flushed ++ [s.batch], running := false }
        else { s with running := false }
    | WorkerEvent.message d =>
        let batch := s.batch ++ [d]
        if batch.length ≥ batchSize then
          { s with batch := [], flushed := s.flushed ++ [batch] }
        else { s with batch := batch }
    | WorkerEvent.tick =>
        if s.batch.length > 0 then
          { s with batch := [], flushed := s.flushed ++ [s.batch] }
        else s
  else s

/-- `Processor.worker` over a sequence of events. -/
def worker {α : Type} (batchSize : Nat) (events : List (WorkerEvent α)) : WorkerState α :=
  events.foldl (workerStep batchSize) WorkerState.init

/-- The invariant of one worker: every batch passed to `flush` so far has between 1 and
`batchSize` messages, and the buffer holds fewer than `batchSize` messages. -/
def WorkerState.Bounded {α : Type} (batchSize : Nat) (s : WorkerState α) : Prop :=
  (∀ b ∈ s.flushed, 1 ≤ b.length ∧ b.length ≤ batchSize) ∧ s.batch.length < batchSize

/-! ## `Processor.flush` -/

/-- What `Processor.flush` does to the outside, in order: a call of a sink with its outcome
(`ok` is `err == nil`), an increment of `metrics.ErrorsTotal` under a label, a `time.Sleep` of
a number of seconds, and the two counters at the end.  Log lines and the latency observation
are left out. -/
inductive FlushEvent (α : Type) where
  | storeInsert (batch : List α) (ok : Bool) : FlushEvent α
  | cacheInsert (batch : List α) (ok : Bool) : FlushEvent α
  | errorsInc (label : String) : FlushEvent α
  | sleep (seconds : Nat) : FlushEvent α
  | batchInsertsInc : FlushEvent α
  | messagesProcessedAdd (n : Nat) : FlushEvent α

/-- The constant `maxRetries` of `Processor.flush`. -/
def maxRetries : Nat := 3

/-- The loop `for i := 0; i < maxRetries; i++` of `Processor.flush` from counter `i` on, with
`remaining = maxRetries - i` passes left.  `sink i` tells whether the call made in pass `i`
returns a nil error. -/
def retryLoop {α : Type} (sink : Nat → Bool) (call : Bool → FlushEvent α) (label : String) :
    Nat → Nat → List (FlushEvent α)
  | 0, _ => []
  | remaining + 1, i =>
      if sink i then [call true]
      else call false :: FlushEvent.errorsInc label :: FlushEvent.sleep (i + 1) ::
        retryLoop sink call label remaining (i + 1)

/-- The store part of `Processor.flush`. -/
def flushStore {α : Type} (store : Nat → Bool) (batch : List α) : List (FlushEvent α) :=
  retryLoop store (FlushEvent.storeInsert batch) "store_insert" maxRetries 0

/-- The cache part of `Processor.flush`. -/
def flushCache {α : Type} (cache : Nat → Bool) (batch : List α) : List (FlushEvent α) :=
  retryLoop cache (FlushEvent.cacheInsert batch) "cache_insert" maxRetries 0

/-- `Processor.flush`: the store loop, the cache loop, the counters. -/
def flush {α : Type} (store cache : Nat → Bool) (batch : List α) : List (FlushEvent α) :=
  flushStore store batch ++ flushCache cache batch ++
    [FlushEvent.batchInsertsInc, FlushEvent.messagesProcessedAdd batch.length]

/-- Number of calls of the store sink in a trace. -/
def storeCalls {α : Type} (t : List (FlushEvent α)) : Nat :=
  t.countP (fun e => match e with
    | FlushEvent.storeInsert _ _ => true
    | _ => false)

/-- Number of calls of the store sink that returned a nil error. -/
def storeSuccesses {α : Type} (t : List (FlushEvent α)) : Nat :=
  t.countP (fun e => match e with
    | FlushEvent.storeInsert _ ok => ok
    | _ => false)

/-- Total number of seconds slept in a trace. -/
def sleptSeconds {α : Type} (t : List (FlushEvent α)) : Nat :=
  (t.map (fun e => match e with
    | FlushEvent.sleep n => n
    | _ => 0)).sum

/-! ## Concrete inputs -/

/-- The inbound item of the transform-pipeline scenario:
`{name:"USDSGD", timestamp:10, exchange:"X", data:{"data":{"bid":1.25,"raw":"r"}}}`. -/
def scenarioItem : MarketData ℚ :=
  { Name := "USDSGD", Timestamp := 10, Exchange := "X",
    Data := FlatMarketData.ofList
      [("data", Value.object (FlatMarketData.ofList
        [("bid", Value.float64 (5 / 4)), ("raw", Value.string "r")]))] }

/-- The config of the transform-pipeline scenario: `{value_rules:{bid:{op:multiply,value:2}},
rename_fields:{raw:"r2"}, remove_fields:["exchange"], override_fields:{"venue":"Z"}}`. -/
def scenarioConfig : SymbolConfig ℚ :=
  { RenameFields := GoMap.single "raw" "r2",
    ValueRules := GoMap.single "bid" { Op := "multiply", Value := 2 },
    OverrideFields := GoMap.single "venue" (Value.string "Z"),
    RemoveFields := ["exchange"],
    UseCurrentTS := false }

/-- The flat map the scenario expects:
`{symbol:"USDSGD", timestamp:10, bid:2.5, r2:"r", venue:"Z"}`. -/
def scenarioExpected : FlatMarketData ℚ :=
  FlatMarketData.ofList
    [("symbol", Value.string "USDSGD"), ("timestamp", Value.int64 10),
     ("bid", Value.float64 (5 / 2)), ("r2", Value.string "r"), ("venue", Value.string "Z")]

/-- A config with the sentinel override and a literal override `venue` whose key is also
removed and also the source of a rename:
`{override_fields:{timestamp:"current", venue:"Z"}, remove_fields:["venue"],
rename_fields:{venue:"v2"}}`. -/
def overrideConfig : SymbolConfig ℚ :=
  { RenameFields := GoMap.single "venue" "v2",
    ValueRules := GoMap.empty,
    OverrideFields :=
      ⟨[("timestamp", Value.string "current"), ("venue", Value.string "Z")], by decide⟩,
    RemoveFields := ["venue"],
    UseCurrentTS := false }

/-- A config has only `rename_fields`. -/
def OnlyRenames {F : Type} (cfg : SymbolConfig F) : Prop :=
  cfg.ValueRules.entries = [] ∧ cfg.OverrideFields.entries = [] ∧ cfg.RemoveFields = []

/-- A chain of renames, `{b: "c", a: "b"}`, visited in this order. -/
def chainConfig : SymbolConfig ℚ :=
  { RenameFields := ⟨[("b", "c"), ("a", "b")], by decide⟩,
    ValueRules := GoMap.empty,
    OverrideFields := GoMap.empty,
    RemoveFields := [],
    UseCurrentTS := false }

/-- The flat map `{a: 1}`. -/
def chainInput : FlatMarketData ℚ := FlatMarketData.ofList [("a", Value.float64 1)]

/-- Two independent renames, `{raw: "r2", bid: "b2"}`. -/
def twoRenamesConfig : SymbolConfig ℚ :=
  { RenameFields := ⟨[("raw", "r2"), ("bid", "b2")], by decide⟩,
    ValueRules := GoMap.empty,
    OverrideFields := GoMap.empty,
    RemoveFields := [],
    UseCurrentTS := false }

/-- The config `twoRenamesConfig` with its renames visited in the other order. -/
def twoRenamesConfigSwapped : SymbolConfig ℚ :=
  { RenameFields := ⟨[("bid", "b2"), ("raw", "r2")], by decide⟩,
    ValueRules := GoMap.empty,
    OverrideFields := GoMap.empty,
    RemoveFields := [],
    UseCurrentTS := false }

/-! ## Reading a flush trace -/

/-- Number of calls of the cache sink in a trace. -/
def cacheCalls {α : Type} (t : List (FlushEvent α)) : Nat :=
  t.countP (fun e => match e with
    | FlushEvent.cacheInsert _ _ => true
    | _ => false)

/-- The durations slept in a trace, in seconds and in order. -/
def sleeps {α : Type} (t : List (FlushEvent α)) : List Nat :=
  t.filterMap (fun e => match e with
    | FlushEvent.sleep n => some n
    | _ => none)

/-- Number of increments of `metrics.BatchInserts` in a trace. -/
def batchInserts {α : Type} (t : List (FlushEvent α)) : Nat :=
  t.countP (fun e => match e with
    | FlushEvent.batchInsertsInc => true
    | _ => false)

/-- Total added to `metrics.MessagesProcessed` in a trace. -/
def messagesProcessed {α : Type} (t : List (FlushEvent α)) : Nat :=
  (t.map (fun e => match e with
    | FlushEvent.messagesProcessedAdd n => n
    | _ => 0)).sum

/-! ## `Store.InsertBatch` and `CacheService.InsertBatch` -/

/-- The arguments of one `stmt.ExecContext` of `Store.InsertBatch`: the four values bound to the
statement `INSERT INTO market_data (name, timestamp, exchange, data)`.  `data` is the result of
`json.Marshal(record.Data)`, `none` being the nil slice left by an encoding error. -/
structure StoreRow where
  name : String
  timestamp : Int
  exchange : String
  data : Option String

/-- What the database answers during one `Store.InsertBatch`: the error (`none` for nil) of
`BeginTx`, of `PrepareContext`, of the `n`-th `ExecContext` (counted from 0) with its row, and of
`Commit`. -/
structure StoreEnv (E : Type) where
  beginTx : Option E
  prepare : Option E
  exec : Nat → StoreRow → Option E
  commit : Option E

/-- Outcome of one `Store.InsertBatch`: the rows passed to `ExecContext` in order (a failing one
included), the rows the transaction made durable, and the returned error. -/
structure StoreResult (E : Type) where
  executed : List StoreRow
  committed : List StoreRow
  err : Option E

/-- The loop `for _, record := range batch` of `Store.InsertBatch`; `executed` holds the rows
passed to `ExecContext` so far.  The error of `json.Marshal(record.Data)` is discarded. -/
def Store.insertRows {F E : Type} (marshalData : (String → Option (Value F)) → Option String)
    (exec : Nat → StoreRow → Option E) :
    List (MarketData F) → List StoreRow → List StoreRow × Option E
  | [], executed => (executed, none)
  | record :: rest, executed =>
      let dataBytes := marshalData record.Data
      if record.Timestamp = 0 then Store.insertRows marshalData exec rest executed
      else
        let row : StoreRow :=
          { name := record.Name, timestamp := record.Timestamp, exchange := record.Exchange,
            data := dataBytes }
        match exec executed.length row with
        | some e => (executed ++ [row], some e)
        | none => Store.insertRows marshalData exec rest (executed ++ [row])

/-- `(*Store).InsertBatch` of `postgres.go`.  Every return before a successful `Commit` runs the
deferred `tx.Rollback()`, which leaves no row of the transaction in the table. -/
def Store.InsertBatch {F E : Type} (env : StoreEnv E)
    (marshalData : (String → Option (Value F)) → Option String) (batch : List (MarketData F)) :
    StoreResult E :=
  match env.beginTx with
  | some e => { executed := [], committed := [], err := some e }
  | none =>
    match env.prepare with
    | some e => { executed := [], committed := [], err := some e }
    | none =>
      match Store.insertRows marshalData env.exec batch [] with
      | (executed, some e) => { executed := executed, committed := [], err := some e }
      | (executed, none) =>
        match env.commit with
        | some e => { executed := executed, committed := [], err := some e }
        | none => { executed := executed, committed := executed, err := none }

/-- One `pipe.Set(ctx, key, value, ttl)` queued by `CacheService.InsertBatch`. -/
structure CacheSet where
  key : String
  value : String
  ttl : Int

/-- Body of the loop `for _, data := range batch` of `CacheService.InsertBatch`; `pipe` holds
the commands queued so far. -/
def CacheService.queueStep {F : Type} (marshal : MarketData F → Option String) (ttl : Int)
    (pipe : List CacheSet) (data : MarketData F) : List CacheSet :=
  if data.Timestamp = 0 then pipe
  else
    match marshal data with
    | none => pipe
    | some value => pipe ++ [{ key := data.Name, value := value, ttl := ttl }]

/-- `(*CacheService).InsertBatch` of `cache_service.go`: the commands queued in the pipeline, in
order, and the error of `pipe.Exec`. -/
def CacheService.InsertBatch {F E : Type} (pipeExec : Option E)
    (marshal : MarketData F → Option String) (batch : List (MarketData F)) (ttl : Int) :
    List CacheSet × Option E :=
  (batch.foldl (CacheService.queueStep marshal ttl) [], pipeExec)

/-- The row of a record as the specification words it: name, timestamp, exchange and the JSON
of its data. -/
def specRow {F : Type} (marshalData : (String → Option (Value F)) → Option String)
    (record : MarketData F) : StoreRow :=
  { name := record.Name, timestamp := record.Timestamp, exchange := record.Exchange,
    data := marshalData record.Data }

/-- The records of a batch with `timestamp ≠ 0`, in batch order. -/
def nonZero {F : Type} (batch : List (MarketData F)) : List (MarketData F) :=
  batch.filter (fun record => decide (record.Timestamp ≠ 0))

/-- A `float64` that is a rational number or NaN, the value `encoding/json` refuses to
encode.  Arithmetic with NaN gives NaN, and NaN differs from `0`. -/
inductive Float64NaN where
  | nan : Float64NaN
  | num (q : ℚ) : Float64NaN

/-- The operations of `Float64NaN`. -/
instance instFloat64NaN : Float64 Float64NaN where
  add a b := match a, b with
    | Float64NaN.num x, Float64NaN.num y => Float64NaN.num (x + y)
    | _, _ => Float64NaN.nan
  sub a b := match a, b with
    | Float64NaN.num x, Float64NaN.num y => Float64NaN.num (x - y)
    | _, _ => Float64NaN.nan
  mul a b := match a, b with
    | Float64NaN.num x, Float64NaN.num y => Float64NaN.num (x * y)
    | _, _ => Float64NaN.nan
  div a b := match a, b with
    | Float64NaN.num x, Float64NaN.num y => Float64NaN.num (x / y)
    | _, _ => Float64NaN.nan
  zero := Float64NaN.num 0
  neZero a := match a with
    | Float64NaN.num x => decide (x ≠ 0)
    | Float64NaN.nan => true
  neZero_zero := by
    show (decide ((0 : ℚ) ≠ 0)) = false
    simp

/-- A record with a non-zero timestamp whose data holds a NaN:
`{Name: "USDSGD", Timestamp: 10, Exchange: "X", Data: {"data": {"bid": NaN}}}`. -/
def nanItem : MarketData Float64NaN :=
  { Name := "USDSGD", Timestamp := 10, Exchange := "X",
    Data := FlatMarketData.ofList
      [("data", Value.object (FlatMarketData.ofList
        [("bid", Value.float64 Float64NaN.nan)]))] }

/-- What `json.Marshal` answers on a value that holds a NaN, the data of `nanItem` as well as
the whole record: an `UnsupportedValueError` and no bytes. -/
def marshalOfNaN {α : Type} : α → Option String := fun _ => none

/-- A database on which every call succeeds. -/
def okStore : StoreEnv String :=
  { beginTx := none, prepare := none, exec := fun _ _ => none, commit := none }

/-- A database on which the second `ExecContext` fails. -/
def failingStore : StoreEnv String :=
  { beginTx := none, prepare := none,
    exec := fun n _ => if n = 1 then some "pq: insert failed" else none,
    commit := none }

/-- A JSON encoding that succeeds on every record (the text is the record's name). -/
def marshalName : MarketData ℚ → Option String := fun record => some record.Name

/-- A JSON encoding of the data that succeeds on every record. -/
def marshalAny : (String → Option (Value ℚ)) → Option String := fun _ => some "{}"

/-- A batch of three records, the second with timestamp 0. -/
def sinkBatch : List (MarketData ℚ) :=
  [scenarioItem, { scenarioItem with Name := "EURUSD", Timestamp := 0 },
   { scenarioItem with Name := "GBPUSD", Timestamp := 11 }]

/-! ## The client registry and `Server.broadcaster` -/

/-- `dto.ClientConfig`: `Symbols` is only indexed; `none` is the nil map. -/
structure ClientConfig (F : Type) where
  Symbols : Option (String → Option (SymbolConfig F))

/-- `websocket.Client`: a connection (`*websocket.Conn`) is a number, and `conns` lists the
connection set in the order in which a `range` visits it.  `Config` is `none` for a nil
pointer. -/
structure Client (F : Type) where
  ID : String
  conns : List Nat
  Config : Option (ClientConfig F)

/-- The registry `Server.clients` (a `sync.Map` from client id to `*Client`): its entries in
the order in which `Range` visits them. -/
abbrev Registry (F : Type) := List (String × Client F)

/-- What one tick of the broadcaster does to the connections of the client stored under key
`client`: a `WriteJSON` that returned nil, a `WriteJSON` that returned an error, a
`conn.Close()`. -/
inductive BroadcastEvent (F : Type) where
  | wrote (client : String) (conn : Nat) (frame : FlatMarketData F) : BroadcastEvent F
  | writeFailed (client : String) (conn : Nat) (frame : FlatMarketData F) : BroadcastEvent F
  | closed (client : String) (conn : Nat) : BroadcastEvent F

/-- The frame the broadcaster sends to a connection of `client` for one snapshot item, at
clock reading `now`: the normalized item, transformed when the client has a config for the
item's symbol. -/
def frameFor {F : Type} [Float64 F] (now : Int) (client : Client F) (item : MarketData F) :
    FlatMarketData F :=
  let flat := normalizeMarketData item
  match client.Config with
  | some config =>
    match config.Symbols with
    | some symbols =>
      match symbols item.Name with
      | some cfg => transformFlat now flat cfg
      | none => flat
    | none => flat
  | none => flat

/-- The loop `for _, item := range allData` of the broadcaster for one connection, from item
number `i` on.  `write i` tells whether the `WriteJSON` of item `i` returns nil, `clock i` is
the clock reading during its transform.  The result is the events and whether the loop ended
without `break`, that is, whether the connection is still in the set. -/
def writeItems {F : Type} [Float64 F] (write : Nat → Bool) (clock : Nat → Int) (key : String)
    (client : Client F) (conn : Nat) : List (MarketData F) → Nat → List (BroadcastEvent F) × Bool
  | [], _ => ([], true)
  | item :: rest, i =>
      let flat := frameFor (clock i) client item
      if write i then
        let r := writeItems write clock key client conn rest (i + 1)
        (BroadcastEvent.wrote key conn flat :: r.1, r.2)
      else ([BroadcastEvent.writeFailed key conn flat, BroadcastEvent.closed key conn], false)

/-- Body of the loop `for conn := range client.conns`: the state is the connection set and the
events so far; a failed write deletes the connection from the set. -/
def connStep {F : Type} [Float64 F] (write : Nat → Nat → Bool) (clock : Nat → Nat → Int)
    (key : String) (client : Client F) (allData : List (MarketData F))
    (st : List Nat × List (BroadcastEvent F)) (conn : Nat) :
    List Nat × List (BroadcastEvent F) :=
  let r := writeItems (write conn) (clock conn) key client conn allData 0
  (if r.2 then st.1 else st.1.filter (fun c => decide (c ≠ conn)), st.2 ++ r.1)

/-- The callback of `s.clients.Range` in the broadcaster, for the entry `key ↦ client`: the
client afterwards and the events. -/
def serveClient {F : Type} [Float64 F] (write : Nat → Nat → Bool) (clock : Nat → Nat → Int)
    (key : String) (client : Client F) (allData : List (MarketData F)) :
    Client F × List (BroadcastEvent F) :=
  let st := client.conns.foldl (connStep write clock key client allData) (client.conns, [])
  ({ client with conns := st.1 }, st.2)

/-- One tick of `Server.broadcaster` whose `GetAllData` returned the snapshot `allData`: the
registry afterwards and the events, in order. -/
def broadcastTick {F : Type} [Float64 F] (write : String → Nat → Nat → Bool)
    (clock : String → Nat → Nat → Int) (registry : Registry F) (allData : List (MarketData F)) :
    Registry F × List (BroadcastEvent F) :=
  registry.foldl (fun acc entry =>
      let r := serveClient (write entry.1) (clock entry.1) entry.1 entry.2 allData
      (acc.1 ++ [(entry.1, r.1)], acc.2 ++ r.2)) ([], [])

/-- The frames written successfully to connection `conn` of the client under `key`, in
order. -/
def framesWritten {F : Type} (key : String) (conn : Nat) (log : List (BroadcastEvent F)) :
    List (FlatMarketData F) :=
  log.filterMap (fun e => match e with
    | BroadcastEvent.wrote k c frame => if k = key ∧ c = conn then some frame else none
    | _ => none)

/-- The frames of the snapshot items from number `i` on, one per item, in snapshot order. -/
def snapshotFrames {F : Type} [Float64 F] (clock : Nat → Int) (client : Client F) :
    List (MarketData F) → Nat → List (FlatMarketData F)
  | [], _ => []
  | item :: rest, i => frameFor (clock i) client item :: snapshotFrames clock client rest (i + 1)

/-- Every write of the `n` snapshot items on a connection succeeds. -/
def allWritesOk (write : Nat → Bool) (n : Nat) : Bool := (List.range n).all write

/-- The client and connection an event is about. -/
def BroadcastEvent.target {F : Type} : BroadcastEvent F → String × Nat
  | BroadcastEvent.wrote k c _ => (k, c)
  | BroadcastEvent.writeFailed k c _ => (k, c)
  | BroadcastEvent.closed k c => (k, c)

/-- A tenant with two connections, `A = 1` and `B = 2`, and the scenario config for the symbol
"USDSGD". -/
def tenantClient : Client ℚ :=
  { ID := "tenant", conns := [1, 2],
    Config := some
      { Symbols := some (fun symbol => if symbol = "USDSGD" then some scenarioConfig else none) } }

/-- A registry with the tenant and one more client. -/
def tickRegistry : Registry ℚ :=
  [("tenant", tenantClient), ("other", { ID := "other", conns := [3], Config := none })]

/-- A snapshot of two items. -/
def tickSnapshot : List (MarketData ℚ) :=
  [scenarioItem, { scenarioItem with Name := "EURUSD", Timestamp := 11 }]

/-- Every write on connection `A = 1` fails, every other write succeeds. -/
def writeFailsOnA : String → Nat → Nat → Bool := fun _ conn _ => decide (conn ≠ 1)

/-- A clock that stands still. -/
def tickClock : String → Nat → Nat → Int := fun _ _ _ => 0

/-! ## Value rules on the egress path -/

/-- A config has only `value_rules`. -/
def OnlyValueRules {F : Type} (cfg : SymbolConfig F) : Prop :=
  cfg.RenameFields.entries = [] ∧ cfg.OverrideFields.entries = [] ∧ cfg.RemoveFields = []

/-- The op of a rule is one of the four the transform knows. -/
def KnownOp (op : String) : Prop :=
  op = "add" ∨ op = "subtract" ∨ op = "multiply" ∨ op = "divide"

/-- A config whose only content is the value rule `timestamp: {op: add, value: 5}`. -/
def timestampRuleConfig : SymbolConfig ℚ :=
  { RenameFields := GoMap.empty,
    ValueRules := GoMap.single "timestamp" { Op := "add", Value := 5 },
    OverrideFields := GoMap.empty,
    RemoveFields := [],
    UseCurrentTS := false }

/-- A config whose only content is the value rule `bid: {op: divide, value: 2}`. -/
def bidRuleConfig : SymbolConfig ℚ :=
  { RenameFields := GoMap.empty,
    ValueRules := GoMap.single "bid" { Op := "divide", Value := 2 },
    OverrideFields := GoMap.empty,
    RemoveFields := [],
    UseCurrentTS := false }

/-! ## `Server.getOrCreateClient` -/

/-- Go `s.clients.Load(id)`: the entry stored under `id`, if any. -/
def Registry.Load {F : Type} (registry : Registry F) (id : String) : Option (Client F) :=
  List.lookup id registry

/-- Go `s.clients.LoadOrStore(id, client)`, run sequentially: the registry afterwards, the
actual entry, and whether it was loaded. -/
def Registry.LoadOrStore {F : Type} (registry : Registry F) (id : String) (client : Client F) :
    Registry F × Client F × Bool :=
  match Registry.Load registry id with
  | some actual => (registry, actual, true)
  | none => (registry ++ [(id, client)], client, false)

/-- `(*Server).getOrCreateClient` of `server.go`, run sequentially: the registry afterwards and
the returned client. -/
def getOrCreateClient {F : Type} (registry : Registry F) (clientID : String)
    (clientConfig : Option (ClientConfig F)) : Registry F × Client F :=
  match Registry.Load registry clientID with
  | some val => (registry, val)
  | none =>
    let client : Client F := { ID := clientID, conns := [], Config := clientConfig }
    let r := Registry.LoadOrStore registry clientID client
    (r.1, r.2.1)

/-- The tenant's transform for a symbol, when one is configured: the client has a config, the
config has symbols, and the symbols have an entry for it. -/
def tenantTransform {F : Type} (client : Client F) (symbol : String) :
    Option (SymbolConfig F) :=
  client.Config.bind (fun config => config.Symbols.bind (fun symbols => symbols symbol))

/-- The frame of a snapshot item as the specification words it: the item normalized to a flat
map, with the tenant's transform for the item's symbol applied when one is configured. -/
def expectedFrame {F : Type} [Float64 F] (now : Int) (client : Client F) (item : MarketData F) :
    FlatMarketData F :=
  match tenantTransform client item.Name with
  | some cfg => transformFlat now (normalizeMarketData item) cfg
  | none => normalizeMarketData item

/-- One expected frame for each snapshot item from number `i` on, in snapshot order; `clock j`
is the clock reading during the transform of item `j`. -/
def expectedFrames {F : Type} [Float64 F] (clock : Nat → Int) (client : Client F) :
    List (MarketData F) → Nat → List (FlatMarketData F)
  | [], _ => []
  | item :: rest, i =>
      expectedFrame (clock i) client item :: expectedFrames clock client rest (i + 1)

/-- The second item of `tickSnapshot` as a flat map; the tenant has no transform for
"EURUSD": `{symbol:"EURUSD", timestamp:11, exchange:"X", bid:1.25, raw:"r"}`. -/
def eurusdExpected : FlatMarketData ℚ :=
  FlatMarketData.ofList
    [("symbol", Value.string "EURUSD"), ("timestamp", Value.int64 11),
     ("exchange", Value.string "X"), ("bid", Value.float64 (5 / 4)),
     ("raw", Value.string "r")]

/-- The second write on connection `A = 1` fails (its first write succeeds), every other
write succeeds. -/
def writeFailsOnASecond : String → Nat → Nat → Bool :=
  fun _ conn i => decide (¬ (conn = 1 ∧ i = 1))

/-! # Theorems -/
/-! ## Maps -/

section Maps

variable {F : Type}

theorem FlatMarketData.set_same (data : FlatMarketData F) (k : String) (v : Value F) :
    data.set k v k = some v := by
  simp [FlatMarketData.set]

theorem FlatMarketData.set_other (data : FlatMarketData F) {k k' : String} (v : Value F)
    (h : k' ≠ k) : data.set k v k' = data k' := by
  simp [FlatMarketData.set, h]

theorem FlatMarketData.delete_same (data : FlatMarketData F) (k : String) :
    data.delete k k = none := by
  simp [FlatMarketData.delete]

theorem FlatMarketData.delete_other (data : FlatMarketData F) {k k' : String} (h : k' ≠ k) :
    data.delete k k' = data k' := by
  simp [FlatMarketData.delete, h]

theorem FlatMarketData.set_self_eq (data : FlatMarketData F) {k : String} {v : Value F}
    (h : data k = some v) : data.set k v = data := by
  funext k'
  by_cases hk : k' = k
  · subst hk; simp [FlatMarketData.set, h]
  · simp [FlatMarketData.set, hk]

end Maps

/-! ## Normalization -/

/-- C2: `normalizeMarketData item` is exactly the inner data block (the object under
`item.Data["data"]`, or the empty map) overlaid with `symbol`, `timestamp` and `exchange`.
Hence the three keys are always present with the item's own values, every other key has the
value the inner block gives it, and a key that is neither one of the three nor in the inner
block is absent. -/
theorem normalizeMarketData_eq_overlay {F : Type} (item : MarketData F) :
    normalizeMarketData item
        = overlayIdentity (innerData item) item.Name item.Timestamp item.Exchange
      ∧ normalizeMarketData item "symbol" = some (Value.string item.Name)
      ∧ normalizeMarketData item "timestamp" = some (Value.int64 item.Timestamp)
      ∧ normalizeMarketData item "exchange" = some (Value.string item.Exchange)
      ∧ (∀ k, k ≠ "symbol" → k ≠ "timestamp" → k ≠ "exchange" →
          normalizeMarketData item k = innerData item k) := by
  have key : normalizeMarketData item
      = overlayIdentity (innerData item) item.Name item.Timestamp item.Exchange := by
    funext k
    unfold normalizeMarketData innerData overlayIdentity
    by_cases h1 : k = "exchange"
    · subst h1; simp [FlatMarketData.set]
    by_cases h2 : k = "timestamp"
    · subst h2; simp [FlatMarketData.set]
    by_cases h3 : k = "symbol"
    · subst h3; simp [FlatMarketData.set]
    simp only [FlatMarketData.set, h1, h2, h3, if_false]
    cases hd : item.Data "data" with
    | none => rfl
    | some v =>
      cases v <;> simp [FlatMarketData.copy, FlatMarketData.empty]
      rename_i inner
      cases inner k <;> rfl
  refine ⟨key, ?_, ?_, ?_, ?_⟩
  · rw [key]; simp [overlayIdentity]
  · rw [key]; simp [overlayIdentity]
  · rw [key]; simp [overlayIdentity]
  · intro k h1 h2 h3
    rw [key]; simp [overlayIdentity, h1, h2, h3]

/-- The inner block of the scenario item has `bid`, and normalization copies it unchanged. -/
theorem normalizeMarketData_eq_overlay_witness :
    normalizeMarketData scenarioItem "bid" = innerData scenarioItem "bid"
      ∧ innerData scenarioItem "bid" = some (Value.float64 (5 / 4)) :=
  ⟨(normalizeMarketData_eq_overlay scenarioItem).2.2.2.2 "bid"
      (by decide) (by decide) (by decide),
    by simp [innerData, scenarioItem, FlatMarketData.ofList, List.lookup]⟩

/-! ## Validation -/

/-- C6: `Validate` returns no error exactly when the name is non-empty and the timestamp is
positive; an empty name gives "name is required" whatever the timestamp, and a non-empty name
with a timestamp `≤ 0` gives "invalid timestamp". -/
theorem Validate_spec {F : Type} (m : MarketData F) :
    (m.Validate = none ↔ m.Name ≠ "" ∧ m.Timestamp > 0)
      ∧ (m.Name = "" → m.Validate = some "name is required")
      ∧ (m.Name ≠ "" → m.Timestamp ≤ 0 → m.Validate = some "invalid timestamp") := by
  unfold MarketData.Validate
  refine ⟨?_, ?_, ?_⟩
  · by_cases hn : m.Name = ""
    · simp [hn]
    · by_cases ht : m.Timestamp ≤ 0
      · simp [hn, ht]
      · simp [hn, ht]; omega
  · intro hn; simp [hn]
  · intro hn ht; simp [hn, ht]

/-- The scenario item (name "USDSGD", timestamp 10) validates; the same item with an empty
name, or with timestamp 0, is rejected with the respective message. -/
theorem Validate_spec_witness :
    scenarioItem.Validate = none
      ∧ MarketData.Validate { scenarioItem with Name := "" } = some "name is required"
      ∧ MarketData.Validate { scenarioItem with Timestamp := 0 } = some "invalid timestamp" :=
  ⟨(Validate_spec scenarioItem).1.2 ⟨by decide, by decide⟩,
    (Validate_spec { scenarioItem with Name := "" }).2.1 rfl,
    (Validate_spec { scenarioItem with Timestamp := 0 }).2.2 (by decide) (by decide)⟩
/-! ## Divide by zero -/

/-- C3: a `divide` rule with value `0` returns every number unchanged, and `transformFlat`
with a config whose only content is such a rule on some field returns the map it was given. -/
theorem divide_by_zero_unchanged {F : Type} [Float64 F] :
    (∀ x : F, applyValueRule x { Op := "divide", Value := 0 } = x)
      ∧ (∀ (now : Int) (m : FlatMarketData F) (field : String),
          transformFlat now m
            { RenameFields := GoMap.empty,
              ValueRules := GoMap.single field { Op := "divide", Value := 0 },
              OverrideFields := GoMap.empty,
              RemoveFields := [],
              UseCurrentTS := false } = m) := by
  have h : ∀ x : F, applyValueRule x { Op := "divide", Value := 0 } = x := by
    intro x
    simp [applyValueRule, Float64.neZero_zero]
  refine ⟨h, ?_⟩
  intro now m field
  simp only [transformFlat, GoMap.empty, GoMap.single, List.foldl_cons, List.foldl_nil,
    valueRuleStep]
  cases hm : m field with
  | none => rfl
  | some v =>
    cases v <;> simp only []
    rename_i x
    rw [h x]
    exact FlatMarketData.set_self_eq m hm

/-! ## The loops of `transformFlat`, key by key -/

section Phases

variable {F : Type}

theorem lookup_eq_none_of_not_mem {V : Type} (k : String) :
    ∀ (L : List (String × V)), k ∉ L.map Prod.fst → L.lookup k = none
  | [], _ => rfl
  | (k0, v0) :: L, h => by
    simp only [List.map_cons, List.mem_cons, not_or] at h
    rw [List.lookup_cons]
    have : (k == k0) = false := by simpa using h.1
    rw [this]
    exact lookup_eq_none_of_not_mem k L h.2

theorem mem_of_lookup_eq_some {V : Type} (k : String) (v : V) :
    ∀ (L : List (String × V)), L.lookup k = some v → (k, v) ∈ L
  | [], h => by simp at h
  | (k0, v0) :: L, h => by
    rw [List.lookup_cons] at h
    by_cases hk : k = k0
    · subst hk
      simp at h
      subst h
      simp
    · have : (k == k0) = false := by simpa using hk
      rw [this] at h
      exact List.mem_cons_of_mem _ (mem_of_lookup_eq_some k v L h)

theorem lookup_eq_some_of_mem {V : Type} (k : String) (v : V) :
    ∀ (L : List (String × V)), (L.map Prod.fst).Nodup → (k, v) ∈ L → L.lookup k = some v
  | [], _, h => by simp at h
  | (k0, v0) :: L, hnd, h => by
    simp only [List.map_cons, List.nodup_cons] at hnd
    rw [List.lookup_cons]
    rcases List.mem_cons.1 h with h1 | h2
    · cases h1; simp
    · have hk : k ≠ k0 := by
        rintro rfl
        exact hnd.1 (List.mem_map.2 ⟨(k, v), h2, rfl⟩)
      have : (k == k0) = false := by simpa using hk
      rw [this]
      exact lookup_eq_some_of_mem k v L hnd.2 h2

/-- The value-rule loop, key by key. -/
theorem foldl_valueRuleStep [Float64 F] :
    ∀ (L : List (String × ValueRule F)), (L.map Prod.fst).Nodup →
      ∀ (m : FlatMarketData F) (k : String),
        L.foldl valueRuleStep m k
          = match m k, L.lookup k with
            | some (Value.float64 x), some r => some (Value.float64 (applyValueRule x r))
            | v, _ => v
  | [], _, m, k => by
    simp only [List.foldl_nil, List.lookup_nil]
    split <;> simp_all
  | (f, r) :: L, hnd, m, k => by
    simp only [List.map_cons, List.nodup_cons] at hnd
    rw [List.foldl_cons, foldl_valueRuleStep L hnd.2, List.lookup_cons]
    by_cases hk : k = f
    · subst hk
      rw [lookup_eq_none_of_not_mem k L hnd.1]
      simp only [beq_self_eq_true, valueRuleStep]
      cases hm : m k with
      | none => simp [hm]
      | some v => cases v <;> simp [FlatMarketData.set, hm]
    · have hb : (k == f) = false := by simpa using hk
      have hm : valueRuleStep m (f, r) k = m k := by
        unfold valueRuleStep
        cases hf : m f with
        | none => rfl
        | some w =>
          cases w <;> simp only []
          exact FlatMarketData.set_other _ _ hk
      rw [hb, hm]

/-- The removal loop, key by key. -/
theorem foldl_removeStep :
    ∀ (L : List String) (m : FlatMarketData F) (k : String),
      L.foldl removeStep m k = if k ∈ L then none else m k
  | [], m, k => by simp
  | f :: L, m, k => by
    rw [List.foldl_cons, foldl_removeStep L]
    by_cases hk : k = f
    · subst hk; simp [removeStep, FlatMarketData.delete]
    · simp [removeStep, FlatMarketData.delete, hk]

/-- What the override loop writes for an entry `(k, v)`. -/
theorem foldl_overrideStep (now : Int) :
    ∀ (L : List (String × Value F)), (L.map Prod.fst).Nodup →
      ∀ (m : FlatMarketData F) (k : String),
        L.foldl (overrideStep now) m k
          = match L.lookup k with
            | some v =>
                if k = "timestamp" ∧ v.eqString "current" = true then some (Value.int64 now)
                else some v
            | none => m k
  | [], _, m, k => by simp
  | (f, v) :: L, hnd, m, k => by
    simp only [List.map_cons, List.nodup_cons] at hnd
    rw [List.foldl_cons, foldl_overrideStep now L hnd.2, List.lookup_cons]
    by_cases hk : k = f
    · subst hk
      rw [lookup_eq_none_of_not_mem k L hnd.1]
      simp only [beq_self_eq_true, overrideStep]
      split <;> simp [FlatMarketData.set]
    · have hb : (k == f) = false := by simpa using hk
      rw [hb]
      have hm : overrideStep now m (f, v) k = m k := by
        unfold overrideStep
        split <;> exact FlatMarketData.set_other _ _ hk
      simp only [hm]

end Phases
section Rename

variable {F : Type}

theorem find_congr_of_mem {α : Type} {p q : α → Bool} :
    ∀ (L : List α), (∀ x ∈ L, p x = q x) → L.find? p = L.find? q
  | [], _ => rfl
  | a :: L, h => by
    rw [List.find?_cons, List.find?_cons, h a (List.mem_cons_self a L),
      find_congr_of_mem L (fun x hx => h x (List.mem_cons_of_mem a hx))]

/-- The rename loop over a collision-free list of renames, key by key. -/
theorem foldl_renameStep :
    ∀ (L : List (String × String)), (L.map Prod.fst).Nodup → (L.map Prod.snd).Nodup →
      (∀ e ∈ L, e.2 ∉ L.map Prod.fst) →
      ∀ (m : FlatMarketData F) (k : String),
        L.foldl renameStep m k
          = match L.find? (fun e => decide (e.2 = k) && (m e.1).isSome) with
            | some e => m e.1
            | none => if (L.lookup k).isSome then none else m k
  | [], _, _, _, m, k => by simp
  | (o, n) :: L, hsrc, htgt, hcf, m, k => by
    simp only [List.map_cons, List.nodup_cons] at hsrc htgt
    have hno : n ≠ o := fun h => hcf (o, n) (List.mem_cons_self _ _) (by simp [h])
    have hnL : n ∉ L.map Prod.fst := fun h =>
      hcf (o, n) (List.mem_cons_self _ _) (by simp only [List.map_cons]; exact List.mem_cons_of_mem _ h)
    have hcf' : ∀ e ∈ L, e.2 ∉ L.map Prod.fst := fun e he h =>
      hcf e (List.mem_cons_of_mem _ he) (by simp only [List.map_cons]; exact List.mem_cons_of_mem _ h)
    have hsrcL : ∀ e ∈ L, e.1 ≠ o ∧ e.1 ≠ n := fun e he =>
      ⟨fun h => hsrc.1 (List.mem_map.2 ⟨e, he, h⟩), fun h => hnL (List.mem_map.2 ⟨e, he, h⟩)⟩
    rw [List.foldl_cons, foldl_renameStep L hsrc.2 htgt.2 hcf', List.find?_cons, List.lookup_cons]
    cases hmo : m o with
    | none =>
      have hm' : renameStep m (o, n) = m := by simp [renameStep, hmo]
      rw [hm']
      simp only [hmo, Option.isSome_none, Bool.and_false]
      cases hfind : L.find? (fun e => decide (e.2 = k) && (m e.1).isSome) with
      | some e => rfl
      | none =>
        by_cases hk : k = o
        · subst hk
          simp [lookup_eq_none_of_not_mem k L hsrc.1, hmo]
        · have hb : (k == o) = false := by simpa using hk
          simp only [hb]
    | some v =>
      have hm' : ∀ k', k' ≠ o → k' ≠ n → renameStep m (o, n) k' = m k' := by
        intro k' h1 h2
        simp [renameStep, hmo, FlatMarketData.set, FlatMarketData.delete, h1, h2]
      have hmn : renameStep m (o, n) n = some v := by
        simp [renameStep, hmo, FlatMarketData.set, FlatMarketData.delete, hno]
      have hmo' : renameStep m (o, n) o = none := by
        simp [renameStep, hmo, FlatMarketData.delete]
      have hcongr : L.find? (fun e => decide (e.2 = k) && (renameStep m (o, n) e.1).isSome)
          = L.find? (fun e => decide (e.2 = k) && (m e.1).isSome) :=
        find_congr_of_mem L (fun e he => by
          simp only [hm' e.1 (hsrcL e he).1 (hsrcL e he).2])
      rw [hcongr]
      by_cases hkn : k = n
      · subst hkn
        have hnone : L.find? (fun e => decide (e.2 = k) && (m e.1).isSome) = none := by
          rw [List.find?_eq_none]
          intro e he hp
          simp only [Bool.and_eq_true, decide_eq_true_eq] at hp
          exact htgt.1 (List.mem_map.2 ⟨e, he, hp.1⟩)
        rw [hnone]
        simp [lookup_eq_none_of_not_mem k L hnL, hmn, hmo]
      · have hd : decide (n = k) = false := by simpa using fun h : n = k => hkn h.symm
        simp only [hd, Bool.false_and]
        cases hfind : L.find? (fun e => decide (e.2 = k) && (m e.1).isSome) with
        | some e =>
          have he := List.mem_of_find?_eq_some hfind
          simp only [hm' e.1 (hsrcL e he).1 (hsrcL e he).2]
        | none =>
          by_cases hk : k = o
          · subst hk
            simp [lookup_eq_none_of_not_mem k L hsrc.1, hmo']
          · have hb : (k == o) = false := by simpa using hk
            simp only [hb, hm' k hk hkn]

end Rename

/-! ## The transform pipeline -/

/-- C1: for a config whose renames are collision-free and whose overrides do not hold the
sentinel `("timestamp", "current")`, `transformFlat` equals the four phases of the
specification applied in the order value rules, renames, removals, overrides, whatever the
order in which the runtime visits the entries of the config maps.  On the scenario item and
config of the specification the result is exactly
`{symbol "USDSGD", timestamp 10, bid 2.5, r2 "r", venue "Z"}`, with no `exchange` key. -/
theorem transformFlat_eq_phases :
    (∀ (F : Type) [Float64 F] (now : Int) (m : FlatMarketData F) (cfg : SymbolConfig F),
        CollisionFree cfg.RenameFields → ¬ HasCurrentTimestamp cfg.OverrideFields →
        transformFlat now m cfg
          = specOverride cfg.OverrideFields (specRemove cfg.RemoveFields
              (specRename cfg.RenameFields (specValueRules cfg.ValueRules m))))
      ∧ (∀ now : Int,
          transformFlat now (normalizeMarketData scenarioItem) scenarioConfig = scenarioExpected
            ∧ transformFlat now (normalizeMarketData scenarioItem) scenarioConfig "exchange"
                = none) := by
  have general : ∀ (F : Type) [Float64 F] (now : Int) (m : FlatMarketData F)
      (cfg : SymbolConfig F),
      CollisionFree cfg.RenameFields → ¬ HasCurrentTimestamp cfg.OverrideFields →
      transformFlat now m cfg
        = specOverride cfg.OverrideFields (specRemove cfg.RemoveFields
            (specRename cfg.RenameFields (specValueRules cfg.ValueRules m))) := by
    intro F _ now m cfg hcf hts
    have hval : cfg.ValueRules.entries.foldl valueRuleStep m
        = specValueRules cfg.ValueRules m := by
      funext k
      rw [foldl_valueRuleStep _ cfg.ValueRules.nodup]
      rfl
    have hren : ∀ d : FlatMarketData F,
        cfg.RenameFields.entries.foldl renameStep d = specRename cfg.RenameFields d := by
      intro d
      funext k
      rw [foldl_renameStep _ cfg.RenameFields.nodup hcf.1 hcf.2]
      rfl
    have hrem : ∀ d : FlatMarketData F,
        cfg.RemoveFields.foldl removeStep d = specRemove cfg.RemoveFields d := by
      intro d
      funext k
      rw [foldl_removeStep]
      rfl
    have hov : ∀ d : FlatMarketData F,
        cfg.OverrideFields.entries.foldl (overrideStep now) d
          = specOverride cfg.OverrideFields d := by
      intro d
      funext k
      rw [foldl_overrideStep now _ cfg.OverrideFields.nodup]
      unfold specOverride GoMap.get
      cases hl : cfg.OverrideFields.entries.lookup k with
      | none => rfl
      | some v =>
        have hmem := mem_of_lookup_eq_some k v _ hl
        have hne : ¬ (k = "timestamp" ∧ v.eqString "current" = true) := by
          rintro ⟨rfl, hv⟩
          exact hts ⟨v, hmem, hv⟩
        simp only [hne, if_false]
    simp only [transformFlat, hval, hren, hrem, hov]
  refine ⟨general, ?_⟩
  intro now
  have hcf : CollisionFree scenarioConfig.RenameFields := by
    simp [CollisionFree, scenarioConfig, GoMap.single, GoMap.keys]
  have hts : ¬ HasCurrentTimestamp scenarioConfig.OverrideFields := by
    simp [HasCurrentTimestamp, scenarioConfig, GoMap.single]
  have heq : transformFlat now (normalizeMarketData scenarioItem) scenarioConfig
      = scenarioExpected := by
    rw [general ℚ now _ _ hcf hts]
    funext k
    by_cases h1 : k = "venue"
    · subst h1
      simp [specOverride, GoMap.get, scenarioConfig, GoMap.single, List.lookup, scenarioExpected,
        FlatMarketData.ofList]
    by_cases h2 : k = "exchange"
    · subst h2
      simp [specOverride, specRemove, GoMap.get, scenarioConfig, GoMap.single, List.lookup,
        scenarioExpected, FlatMarketData.ofList]
    by_cases h3 : k = "r2"
    · subst h3
      simp [specOverride, specRemove, specRename, specValueRules, GoMap.get, scenarioConfig,
        GoMap.single, List.lookup, scenarioExpected, FlatMarketData.ofList,
        normalizeMarketData, scenarioItem, FlatMarketData.set, FlatMarketData.copy,
        FlatMarketData.empty]
    by_cases h4 : k = "raw"
    · subst h4
      simp [specOverride, specRemove, specRename, specValueRules, GoMap.get, scenarioConfig,
        GoMap.single, List.lookup, scenarioExpected, FlatMarketData.ofList,
        normalizeMarketData, scenarioItem, FlatMarketData.set, FlatMarketData.copy,
        FlatMarketData.empty]
    by_cases h5 : k = "bid"
    · subst h5
      simp [specOverride, specRemove, specRename, specValueRules, GoMap.get, scenarioConfig,
        GoMap.single, List.lookup, scenarioExpected, FlatMarketData.ofList,
        normalizeMarketData, scenarioItem, FlatMarketData.set, FlatMarketData.copy,
        FlatMarketData.empty, applyValueRule]
      norm_num
    by_cases h6 : k = "symbol"
    · subst h6
      simp [specOverride, specRemove, specRename, specValueRules, GoMap.get, scenarioConfig,
        GoMap.single, List.lookup, scenarioExpected, FlatMarketData.ofList,
        normalizeMarketData, scenarioItem, FlatMarketData.set, FlatMarketData.copy,
        FlatMarketData.empty]
    by_cases h7 : k = "timestamp"
    · subst h7
      simp [specOverride, specRemove, specRename, specValueRules, GoMap.get, scenarioConfig,
        GoMap.single, List.lookup, scenarioExpected, FlatMarketData.ofList,
        normalizeMarketData, scenarioItem, FlatMarketData.set, FlatMarketData.copy,
        FlatMarketData.empty]
    have b1 : (k == "venue") = false := by simpa using h1
    have b4 : (k == "raw") = false := by simpa using h4
    have b5 : (k == "bid") = false := by simpa using h5
    have b6 : (k == "symbol") = false := by simpa using h6
    have b7 : (k == "timestamp") = false := by simpa using h7
    have b3 : (k == "r2") = false := by simpa using h3
    have h3' : ¬ "r2" = k := fun h => h3 h.symm
    simp [specOverride, specRemove, specRename, specValueRules, GoMap.get, scenarioConfig,
        GoMap.single, List.lookup, scenarioExpected, FlatMarketData.ofList,
        normalizeMarketData, scenarioItem, FlatMarketData.set, FlatMarketData.copy,
        FlatMarketData.empty, h1, h2, h3', h4, h5, h6, h7, b1, b3, b4, b5, b6, b7]
  refine ⟨heq, ?_⟩
  rw [heq]
  simp [scenarioExpected, FlatMarketData.ofList, List.lookup]

/-- The scenario config meets the two hypotheses, and `transformFlat` on the normalized
scenario item is the four phases in order. -/
theorem transformFlat_eq_phases_witness :
    CollisionFree scenarioConfig.RenameFields
      ∧ ¬ HasCurrentTimestamp scenarioConfig.OverrideFields
      ∧ transformFlat 0 (normalizeMarketData scenarioItem) scenarioConfig
          = specOverride scenarioConfig.OverrideFields (specRemove scenarioConfig.RemoveFields
              (specRename scenarioConfig.RenameFields
                (specValueRules scenarioConfig.ValueRules (normalizeMarketData scenarioItem)))) :=
  have hcf : CollisionFree scenarioConfig.RenameFields := by
    simp [CollisionFree, scenarioConfig, GoMap.single, GoMap.keys]
  have hts : ¬ HasCurrentTimestamp scenarioConfig.OverrideFields := by
    simp [HasCurrentTimestamp, scenarioConfig, GoMap.single]
  ⟨hcf, hts, transformFlat_eq_phases.1 ℚ 0 _ _ hcf hts⟩

/-! ## Overrides -/

/-- C5: when `override_fields` maps `timestamp` to the string "current", the output of
`transformFlat` at clock reading `now` has `timestamp` equal to the integer `now`, not the
string "current"; every other override entry `(k, v)` is written literally, whatever the
value rules, renames and removals of the config do to `k`. -/
theorem transformFlat_override {F : Type} [Float64 F] (now : Int) (m : FlatMarketData F)
    (cfg : SymbolConfig F) (h : HasCurrentTimestamp cfg.OverrideFields) :
    transformFlat now m cfg "timestamp" = some (Value.int64 now)
      ∧ transformFlat now m cfg "timestamp" ≠ some (Value.string "current")
      ∧ (∀ k v, (k, v) ∈ cfg.OverrideFields.entries →
          ¬ (k = "timestamp" ∧ v.eqString "current" = true) →
          transformFlat now m cfg k = some v) := by
  have key : ∀ k v, (k, v) ∈ cfg.OverrideFields.entries →
      transformFlat now m cfg k
        = if k = "timestamp" ∧ v.eqString "current" = true then some (Value.int64 now)
          else some v := by
    intro k v hmem
    simp only [transformFlat]
    rw [foldl_overrideStep now _ cfg.OverrideFields.nodup,
      lookup_eq_some_of_mem k v _ cfg.OverrideFields.nodup hmem]
  obtain ⟨v, hmem, hv⟩ := h
  have hts : transformFlat now m cfg "timestamp" = some (Value.int64 now) := by
    rw [key "timestamp" v hmem]
    simp [hv]
  refine ⟨hts, ?_, ?_⟩
  · rw [hts]
    intro hc
    cases hc
  · intro k w hmem hne
    rw [key k w hmem]
    simp only [hne, if_false]

/-- At clock reading 1700000000000 the config `overrideConfig` writes that integer under
`timestamp`, and writes `venue = "Z"` although `venue` is removed and renamed. -/
theorem transformFlat_override_witness :
    HasCurrentTimestamp overrideConfig.OverrideFields
      ∧ transformFlat 1700000000000 (normalizeMarketData scenarioItem) overrideConfig "timestamp"
          = some (Value.int64 1700000000000)
      ∧ transformFlat 1700000000000 (normalizeMarketData scenarioItem) overrideConfig "venue"
          = some (Value.string "Z")
      ∧ "venue" ∈ overrideConfig.RemoveFields
      ∧ overrideConfig.RenameFields.get "venue" = some "v2" :=
  have h : HasCurrentTimestamp overrideConfig.OverrideFields :=
    ⟨Value.string "current", by simp [overrideConfig], by simp [Value.eqString]⟩
  have t := transformFlat_override 1700000000000 (normalizeMarketData scenarioItem)
    overrideConfig h
  ⟨h, t.1,
    t.2.2 "venue" (Value.string "Z") (by simp [overrideConfig]) (by simp),
    by simp [overrideConfig],
    by simp [overrideConfig, GoMap.get, GoMap.single, List.lookup]⟩

/-! ## Renames applied twice -/

section Idempotence

variable {F : Type}

theorem foldl_renameStep_of_absent :
    ∀ (L : List (String × String)) (d : FlatMarketData F),
      (∀ e ∈ L, d e.1 = none) → L.foldl renameStep d = d
  | [], _, _ => rfl
  | e :: L, d, h => by
    have hd : renameStep d e = d := by
      simp [renameStep, h e (List.mem_cons_self _ _)]
    rw [List.foldl_cons, hd]
    exact foldl_renameStep_of_absent L d (fun e' he' => h e' (List.mem_cons_of_mem _ he'))

theorem foldl_renameStep_stays_absent (s : String) :
    ∀ (L : List (String × String)) (d : FlatMarketData F),
      (∀ e ∈ L, e.2 ≠ s) → d s = none → L.foldl renameStep d s = none
  | [], _, _, hd => hd
  | e :: L, d, h, hd => by
    rw [List.foldl_cons]
    apply foldl_renameStep_stays_absent s L _ (fun e' he' => h e' (List.mem_cons_of_mem _ he'))
    unfold renameStep
    cases hde : d e.1 with
    | none => exact hd
    | some v =>
      by_cases hs : s = e.1
      · simp [FlatMarketData.delete, hs]
      · have hne : s ≠ e.2 := fun hh => h e (List.mem_cons_self _ _) hh.symm
        simp [FlatMarketData.delete, FlatMarketData.set, hs, hne, hd]

theorem foldl_renameStep_source_absent (s : String) :
    ∀ (L : List (String × String)) (d : FlatMarketData F),
      (∀ e ∈ L, e.2 ≠ s) → s ∈ L.map Prod.fst → L.foldl renameStep d s = none
  | [], _, _, hs => by simp at hs
  | e :: L, d, h, hs => by
    rw [List.foldl_cons]
    have hL : ∀ e' ∈ L, e'.2 ≠ s := fun e' he' => h e' (List.mem_cons_of_mem _ he')
    by_cases hes : e.1 = s
    · apply foldl_renameStep_stays_absent s L _ hL
      unfold renameStep
      cases hde : d e.1 with
      | none => simpa [hes] using hde
      | some v => simp [FlatMarketData.delete, hes]
    · apply foldl_renameStep_source_absent s L _ hL
      simp only [List.map_cons, List.mem_cons] at hs
      rcases hs with hs | hs
      · exact absurd hs.symm hes
      · exact hs

end Idempotence

/-- C4, counterexample: with the chain of renames `{b: "c", a: "b"}` visited in this order and
the map `{a: 1}`, one pass gives `{b: 1}` and a second pass gives `{c: 1}`. -/
theorem rename_not_idempotent :
    OnlyRenames chainConfig
      ∧ transformFlat 0 chainInput chainConfig "b" = some (Value.float64 1)
      ∧ transformFlat 0 (transformFlat 0 chainInput chainConfig) chainConfig "b" = none
      ∧ transformFlat 0 (transformFlat 0 chainInput chainConfig) chainConfig
          ≠ transformFlat 0 chainInput chainConfig := by
  have h1 : transformFlat 0 chainInput chainConfig "b" = some (Value.float64 1) := by
    simp [transformFlat, chainConfig, chainInput, GoMap.empty, renameStep,
      FlatMarketData.ofList, FlatMarketData.set, FlatMarketData.delete, List.lookup]
  have h2 : transformFlat 0 (transformFlat 0 chainInput chainConfig) chainConfig "b" = none := by
    simp [transformFlat, chainConfig, chainInput, GoMap.empty, renameStep,
      FlatMarketData.ofList, FlatMarketData.set, FlatMarketData.delete, List.lookup]
  refine ⟨by simp [OnlyRenames, chainConfig, GoMap.empty], h1, h2, ?_⟩
  intro heq
  have := congrFun heq "b"
  rw [h1, h2] at this
  cases this

/-- C4, amended: for a config that has only `rename_fields` in which no rename target is also
a rename source, a second pass of `transformFlat` over an already-renamed map returns that
map, also when the runtime visits the renames in another order the second time. -/
theorem rename_idempotent {F : Type} [Float64 F] (now now' : Int) (m : FlatMarketData F)
    (cfg cfg' : SymbolConfig F) (honly : OnlyRenames cfg) (honly' : OnlyRenames cfg')
    (hperm : cfg'.RenameFields.entries.Perm cfg.RenameFields.entries)
    (hfree : ∀ e ∈ cfg.RenameFields.entries, e.2 ∉ cfg.RenameFields.keys) :
    transformFlat now' (transformFlat now m cfg) cfg' = transformFlat now m cfg := by
  obtain ⟨hv, ho, hr⟩ := honly
  obtain ⟨hv', ho', hr'⟩ := honly'
  simp only [transformFlat, hv, ho, hr, hv', ho', hr', List.foldl_nil]
  apply foldl_renameStep_of_absent
  intro e he
  have heL : e ∈ cfg.RenameFields.entries := hperm.mem_iff.1 he
  apply foldl_renameStep_source_absent
  · intro e' he' heq
    exact hfree e' he' (heq ▸ List.mem_map.2 ⟨e, heL, rfl⟩)
  · exact List.mem_map.2 ⟨e, heL, rfl⟩

/-- Two independent renames, visited in one order and then in the other: the second pass
changes nothing. -/
theorem rename_idempotent_witness :
    transformFlat 0 (transformFlat 0 (normalizeMarketData scenarioItem) twoRenamesConfig)
        twoRenamesConfigSwapped
      = transformFlat 0 (normalizeMarketData scenarioItem) twoRenamesConfig :=
  rename_idempotent 0 0 (normalizeMarketData scenarioItem) twoRenamesConfig
    twoRenamesConfigSwapped
    (by simp [OnlyRenames, twoRenamesConfig, GoMap.empty])
    (by simp [OnlyRenames, twoRenamesConfigSwapped, GoMap.empty])
    (by simp only [twoRenamesConfig, twoRenamesConfigSwapped]; exact List.Perm.swap _ _ _)
    (by simp [twoRenamesConfig, GoMap.keys])

/-! ## Reconnect backoff -/

/-- C7, at six consecutive dial failures: the durations slept on are 1, 2, 4, 8, 16 and 32
seconds, so the sixth sleep is longer than the 30 s ceiling, and `backoff` stays at 32 s. -/
theorem backoff_exceeds_ceiling :
    (Ingestor.Start (List.replicate 6 DialOutcome.failed)).slept
        = [1 * Second, 2 * Second, 4 * Second, 8 * Second, 16 * Second, 32 * Second]
      ∧ (Ingestor.Start (List.replicate 6 DialOutcome.failed)).backoff = 32 * Second
      ∧ (Ingestor.Start (List.replicate 7 DialOutcome.failed)).backoff = 32 * Second
      ∧ 32 * Second > 30 * Second := by
  decide


theorem Ingestor.step_backoff (s : IngestorState) (o : DialOutcome)
    (h : ∃ i, i ≤ 5 ∧ s.backoff = 2 ^ i * Second) :
    ∃ i, i ≤ 5 ∧ (Ingestor.step s o).backoff = 2 ^ i * Second := by
  obtain ⟨i, hi, hb⟩ := h
  cases o with
  | connected => exact ⟨0, by omega, by simp [Ingestor.step]⟩
  | failed =>
    simp only [Ingestor.step, hb]
    interval_cases i
    · exact ⟨1, by omega, by decide⟩
    · exact ⟨2, by omega, by decide⟩
    · exact ⟨3, by omega, by decide⟩
    · exact ⟨4, by omega, by decide⟩
    · exact ⟨5, by omega, by decide⟩
    · exact ⟨5, by omega, by decide⟩

theorem Ingestor.foldl_step_slept :
    ∀ (outcomes : List DialOutcome) (s : IngestorState),
      (∃ i, i ≤ 5 ∧ s.backoff = 2 ^ i * Second) →
      (∀ d ∈ s.slept, Second ≤ d ∧ d ≤ 32 * Second) →
      ∀ d ∈ (outcomes.foldl Ingestor.step s).slept, Second ≤ d ∧ d ≤ 32 * Second
  | [], _, _, hs => hs
  | o :: outcomes, s, hb, hs => by
    rw [List.foldl_cons]
    apply Ingestor.foldl_step_slept outcomes _ (Ingestor.step_backoff s o hb)
    cases o with
    | connected => exact hs
    | failed =>
      intro d hd
      simp only [Ingestor.step] at hd
      rcases List.mem_append.1 hd with h | h
      · exact hs d h
      · simp only [List.mem_singleton] at h
        obtain ⟨i, hi, hbk⟩ := hb
        rw [h, hbk]
        interval_cases i <;> decide

/-- Whatever the dial outcomes, every duration the connect loop sleeps on lies between 1 s and
32 s: the doubling stops only once `backoff` has reached 32 s. -/
theorem Ingestor.Start_slept_bounds (outcomes : List DialOutcome) :
    ∀ d ∈ (Ingestor.Start outcomes).slept, Second ≤ d ∧ d ≤ 32 * Second :=
  Ingestor.foldl_step_slept outcomes _ ⟨0, by omega, by decide⟩ (by simp)

/-! ## Batching -/

section Worker

variable {α : Type}

theorem workerStep_bounded (batchSize : Nat) (s : WorkerState α) (e : WorkerEvent α)
    (h : s.Bounded batchSize) : (workerStep batchSize s e).Bounded batchSize := by
  obtain ⟨hf, hb⟩ := h
  unfold workerStep
  by_cases hr : s.running = true
  · simp only [hr, if_true]
    cases e with
    | shutdown =>
      by_cases hlen : s.batch.length > 0
      · simp only [hlen, if_true]
        refine ⟨?_, hb⟩
        intro b hbm
        rcases List.mem_append.1 hbm with h1 | h1
        · exact hf b h1
        · simp only [List.mem_singleton] at h1
          subst h1
          exact ⟨hlen, Nat.le_of_lt hb⟩
      · simp only [hlen, if_false]
        exact ⟨hf, hb⟩
    | message d =>
      by_cases hlen : (s.batch ++ [d]).length ≥ batchSize
      · simp only [hlen, if_true]
        refine ⟨?_, by simp only [List.length_nil]; omega⟩
        intro b hbm
        rcases List.mem_append.1 hbm with h1 | h1
        · exact hf b h1
        · simp only [List.mem_singleton] at h1
          subst h1
          simp only [List.length_append, List.length_singleton] at hlen ⊢
          omega
      · simp only [hlen, if_false]
        refine ⟨hf, ?_⟩
        simp only [List.length_append, List.length_singleton] at hlen ⊢
        omega
    | tick =>
      by_cases hlen : s.batch.length > 0
      · simp only [hlen, if_true]
        refine ⟨?_, by simp only [List.length_nil]; omega⟩
        intro b hbm
        rcases List.mem_append.1 hbm with h1 | h1
        · exact hf b h1
        · simp only [List.mem_singleton] at h1
          subst h1
          exact ⟨hlen, Nat.le_of_lt hb⟩
      · simp only [hlen, if_false]
        exact ⟨hf, hb⟩
  · simp only [hr]
    exact ⟨hf, hb⟩

theorem foldl_workerStep_bounded (batchSize : Nat) :
    ∀ (events : List (WorkerEvent α)) (s : WorkerState α), s.Bounded batchSize →
      (events.foldl (workerStep batchSize) s).Bounded batchSize
  | [], _, h => h
  | e :: events, s, h => by
    rw [List.foldl_cons]
    exact foldl_workerStep_bounded batchSize events _ (workerStep_bounded batchSize s e h)

/-- What a worker holds after the messages `msgs` and nothing else: `q` full batches flushed,
`r < batchSize` messages buffered, nothing lost and nothing reordered. -/
theorem worker_messages (batchSize : Nat) (hB : 1 ≤ batchSize) (msgs : List α) :
    ∃ q r, (worker batchSize (msgs.map WorkerEvent.message)).running = true
      ∧ (worker batchSize (msgs.map WorkerEvent.message)).batch.length = r
      ∧ r < batchSize
      ∧ r + batchSize * q = msgs.length
      ∧ (worker batchSize (msgs.map WorkerEvent.message)).flushed.map List.length
          = List.replicate q batchSize
      ∧ (worker batchSize (msgs.map WorkerEvent.message)).flushed.flatten
          ++ (worker batchSize (msgs.map WorkerEvent.message)).batch = msgs := by
  induction msgs using List.reverseRecOn with
  | nil => exact ⟨0, 0, rfl, rfl, by omega, by simp, by simp [worker, WorkerState.init], rfl⟩
  | append_singleton l d ih =>
    obtain ⟨q, r, hrun, hlen, hr, hsum, hfl, hcat⟩ := ih
    have hstep : worker batchSize ((l ++ [d]).map WorkerEvent.message)
        = workerStep batchSize (worker batchSize (l.map WorkerEvent.message))
            (WorkerEvent.message d) := by
      simp [worker, List.foldl_append]
    rw [hstep]
    generalize worker batchSize (l.map WorkerEvent.message) = s at hrun hlen hfl hcat
    unfold workerStep
    rw [if_pos hrun]
    by_cases hfull : (s.batch ++ [d]).length ≥ batchSize
    · simp only [hfull, if_true]
      have hlen' : (s.batch ++ [d]).length = batchSize := by
        simp only [List.length_append, List.length_singleton] at hfull ⊢
        omega
      refine ⟨q + 1, 0, hrun, rfl, by omega, ?_, ?_, ?_⟩
      · simp only [List.length_append, List.length_singleton] at hlen' ⊢
        rw [Nat.mul_add]
        omega
      · rw [List.map_append, hfl, List.map_singleton, hlen', List.replicate_succ']
      · rw [List.flatten_append, List.flatten_singleton, List.append_nil, ← List.append_assoc,
          hcat]
    · simp only [hfull, if_false]
      refine ⟨q, r + 1, hrun, ?_, ?_, ?_, hfl, ?_⟩
      · simp [hlen]
      · simp only [List.length_append, List.length_singleton] at hfull
        omega
      · simp only [List.length_append, List.length_singleton]
        omega
      · rw [← List.append_assoc, hcat]

end Worker

/-- C8: one worker with `batchSize ≥ 1`, started with an empty buffer, over any sequence of
new-message, timer-tick and shutdown events: every batch passed to `flush` has at least 1 and
at most `batchSize` messages, and after every step (after every prefix of the events) the
buffer holds strictly fewer than `batchSize` messages. -/
theorem worker_batches_bounded {α : Type} (batchSize : Nat) (hB : 1 ≤ batchSize)
    (events : List (WorkerEvent α)) :
    (∀ b ∈ (worker batchSize events).flushed, 1 ≤ b.length ∧ b.length ≤ batchSize)
      ∧ (∀ n, (worker batchSize (events.take n)).batch.length < batchSize) := by
  have init : (WorkerState.init : WorkerState α).Bounded batchSize :=
    ⟨by simp [WorkerState.init], by simp only [WorkerState.init, List.length_nil]; omega⟩
  exact ⟨(foldl_workerStep_bounded batchSize events _ init).1,
    fun n => (foldl_workerStep_bounded batchSize (events.take n) _ init).2⟩

/-- With `batchSize = 2`, over four messages, a tick, a message and the shutdown, the batches
flushed are `[1, 2]`, `[3, 4]` and `[5]`, and the buffer is empty after the fifth event. -/
theorem worker_batches_bounded_witness :
    (∀ b ∈ (worker 2 [WorkerEvent.message 1, WorkerEvent.message 2, WorkerEvent.message 3,
          WorkerEvent.message 4, WorkerEvent.tick, WorkerEvent.message 5,
          WorkerEvent.shutdown]).flushed, 1 ≤ b.length ∧ b.length ≤ 2)
      ∧ (worker 2 [WorkerEvent.message 1, WorkerEvent.message 2, WorkerEvent.message 3,
          WorkerEvent.message 4, WorkerEvent.tick, WorkerEvent.message 5,
          WorkerEvent.shutdown]).flushed = [[1, 2], [3, 4], [5]]
      ∧ (worker 2 (List.take 5 [WorkerEvent.message 1, WorkerEvent.message 2,
          WorkerEvent.message 3, WorkerEvent.message 4, WorkerEvent.tick,
          WorkerEvent.message 5, WorkerEvent.shutdown])).batch.length < 2 :=
  ⟨(worker_batches_bounded 2 (by decide) _).1, by decide,
    (worker_batches_bounded 2 (by decide) _).2 5⟩

/-- C9: one worker with `batchSize ≥ 1` that receives the messages `msgs` and then one timer
tick, or the shutdown signal: the batches passed to `flush`, concatenated in flush order, are
exactly `msgs`; their sizes are `msgs.length / batchSize` times `batchSize`, followed by
`msgs.length % batchSize` when that is not zero. -/
theorem worker_flushes_all {α : Type} (batchSize : Nat) (hB : 1 ≤ batchSize) (msgs : List α)
    (last : WorkerEvent α) (hlast : last = WorkerEvent.tick ∨ last = WorkerEvent.shutdown) :
    (worker batchSize (msgs.map WorkerEvent.message ++ [last])).flushed.flatten = msgs
      ∧ (worker batchSize (msgs.map WorkerEvent.message ++ [last])).flushed.map List.length
          = List.replicate (msgs.length / batchSize) batchSize
              ++ (if msgs.length % batchSize = 0 then [] else [msgs.length % batchSize]) := by
  obtain ⟨q, r, hrun, hlen, hr, hsum, hfl, hcat⟩ := worker_messages batchSize hB msgs
  obtain ⟨hq, hrm⟩ := (Nat.div_mod_unique (Nat.lt_of_lt_of_le Nat.zero_lt_one hB)).2 ⟨hsum, hr⟩
  have hstep : worker batchSize (msgs.map WorkerEvent.message ++ [last])
      = workerStep batchSize (worker batchSize (msgs.map WorkerEvent.message)) last := by
    simp [worker, List.foldl_append]
  rw [hstep, hq, hrm]
  generalize worker batchSize (msgs.map WorkerEvent.message) = s at hrun hlen hfl hcat
  by_cases hr0 : r = 0
  · have hnil : s.batch = [] := List.length_eq_zero.1 (hlen.trans hr0)
    have hno : ¬ s.batch.length > 0 := by omega
    rw [hnil, List.append_nil] at hcat
    rcases hlast with rfl | rfl <;>
      simp [workerStep, hrun, hno, hr0, hfl, hcat]
  · have hpos : s.batch.length > 0 := by omega
    have hpos' : 0 < r := by omega
    rcases hlast with rfl | rfl <;>
      simp [workerStep, hrun, hpos', hr0, hfl, hcat, hlen]

/-- With `batchSize = 3` and four messages, then a tick: exactly one batch `[m1, m2, m3]` and
one trailing batch `[m4]` (here the messages are the numbers 1 to 4). -/
theorem worker_flushes_all_witness :
    (worker 3 ([1, 2, 3, 4].map WorkerEvent.message ++ [WorkerEvent.tick])).flushed
        = [[1, 2, 3], [4]]
      ∧ (worker 3 ([1, 2, 3, 4].map WorkerEvent.message ++ [WorkerEvent.tick])).flushed.flatten
          = [1, 2, 3, 4]
      ∧ (worker 3 ([1, 2, 3, 4].map WorkerEvent.message
            ++ [WorkerEvent.tick])).flushed.map List.length
          = List.replicate (4 / 3) 3 ++ (if 4 % 3 = 0 then [] else [4 % 3]) :=
  ⟨by decide,
    (worker_flushes_all 3 (by decide) [1, 2, 3, 4] WorkerEvent.tick (Or.inl rfl)).1,
    (worker_flushes_all 3 (by decide) [1, 2, 3, 4] WorkerEvent.tick (Or.inl rfl)).2⟩

/-! ## Flush -/

section Flush

variable {α : Type}

theorem flushCache_cases (cache : Nat → Bool) (batch : List α) :
    ∃ rest, flushCache cache batch = FlushEvent.cacheInsert batch (cache 0) :: rest
      ∧ storeCalls rest = 0 ∧ storeSuccesses rest = 0 := by
  unfold flushCache maxRetries
  cases h0 : cache 0 <;> cases h1 : cache 1 <;> cases h2 : cache 2 <;>
    simp [retryLoop, h0, h1, h2, storeCalls, storeSuccesses]

theorem storeCalls_append (s t : List (FlushEvent α)) :
    storeCalls (s ++ t) = storeCalls s + storeCalls t := by
  simp [storeCalls, List.countP_append]

theorem storeSuccesses_append (s t : List (FlushEvent α)) :
    storeSuccesses (s ++ t) = storeSuccesses s + storeSuccesses t := by
  simp [storeSuccesses, List.countP_append]

end Flush

/-- C10: when the store sink fails its first `k` attempts (`k ≤ 2`) and succeeds on attempt
`k + 1`, a flush calls the store sink exactly `k + 1` times, exactly one of these calls
succeeds, the store loop sleeps `1 + ... + k` seconds in total, and right after the store loop
the cache sink is called with the same batch. -/
theorem flush_store_retry {α : Type} (store cache : Nat → Bool) (batch : List α) (k : Nat)
    (hk : k ≤ 2) (hfail : ∀ i, i < k → store i = false) (hok : store k = true) :
    storeCalls (flush store cache batch) = k + 1
      ∧ storeSuccesses (flush store cache batch) = 1
      ∧ sleptSeconds (flushStore store batch) = (List.range (k + 1)).sum
      ∧ ∃ rest, flush store cache batch
          = flushStore store batch ++ FlushEvent.cacheInsert batch (cache 0) :: rest := by
  obtain ⟨rest, hcache, hc0, hs0⟩ := flushCache_cases cache batch
  have hsplit : flush store cache batch
      = flushStore store batch ++ FlushEvent.cacheInsert batch (cache 0) ::
          (rest ++ [FlushEvent.batchInsertsInc, FlushEvent.messagesProcessedAdd batch.length]) := by
    simp [flush, hcache]
  have htail : storeCalls (FlushEvent.cacheInsert batch (cache 0) ::
        (rest ++ [FlushEvent.batchInsertsInc, FlushEvent.messagesProcessedAdd batch.length])) = 0
      ∧ storeSuccesses (FlushEvent.cacheInsert batch (cache 0) ::
        (rest ++ [FlushEvent.batchInsertsInc, FlushEvent.messagesProcessedAdd batch.length]))
          = 0 := by
    have e : FlushEvent.cacheInsert batch (cache 0) ::
        (rest ++ [FlushEvent.batchInsertsInc, FlushEvent.messagesProcessedAdd batch.length])
        = [FlushEvent.cacheInsert batch (cache 0)] ++ rest
          ++ [FlushEvent.batchInsertsInc, FlushEvent.messagesProcessedAdd batch.length] := by
      simp
    rw [e, storeCalls_append, storeCalls_append, storeSuccesses_append, storeSuccesses_append,
      hc0, hs0]
    simp [storeCalls, storeSuccesses]
  have hstore : storeCalls (flushStore store batch) = k + 1
      ∧ storeSuccesses (flushStore store batch) = 1
      ∧ sleptSeconds (flushStore store batch) = (List.range (k + 1)).sum := by
    unfold flushStore maxRetries
    interval_cases k
    · simp [retryLoop, hok, storeCalls, storeSuccesses, sleptSeconds]
      decide
    · have h0 := hfail 0 (by decide)
      simp [retryLoop, hok, h0, storeCalls, storeSuccesses, sleptSeconds]
      decide
    · have h0 := hfail 0 (by decide)
      have h1 := hfail 1 (by decide)
      simp [retryLoop, hok, h0, h1, storeCalls, storeSuccesses, sleptSeconds]
      decide
  refine ⟨?_, ?_, hstore.2.2, _, hsplit⟩
  · rw [hsplit, storeCalls_append, htail.1, hstore.1]
  · rw [hsplit, storeSuccesses_append, htail.2, hstore.2.1]

/-- A store that fails its first two attempts and succeeds on the third, with a cache that
always succeeds: three store calls, one success, `1 + 2 = 3` seconds slept, and the trace of
the whole flush. -/
theorem flush_store_retry_witness :
    storeCalls (flush (fun i => decide (2 ≤ i)) (fun _ => true) [1, 2, 3]) = 2 + 1
      ∧ storeSuccesses (flush (fun i => decide (2 ≤ i)) (fun _ => true) [1, 2, 3]) = 1
      ∧ sleptSeconds (flushStore (fun i => decide (2 ≤ i)) [1, 2, 3]) = 3
      ∧ flush (fun i => decide (2 ≤ i)) (fun _ => true) [1, 2, 3]
          = [FlushEvent.storeInsert [1, 2, 3] false, FlushEvent.errorsInc "store_insert",
              FlushEvent.sleep 1,
             FlushEvent.storeInsert [1, 2, 3] false, FlushEvent.errorsInc "store_insert",
              FlushEvent.sleep 2,
             FlushEvent.storeInsert [1, 2, 3] true,
             FlushEvent.cacheInsert [1, 2, 3] true,
             FlushEvent.batchInsertsInc, FlushEvent.messagesProcessedAdd 3] :=
  have t := flush_store_retry (fun i => decide (2 ≤ i)) (fun _ => true) [1, 2, 3] 2
    (by decide) (fun i hi => by simp; omega) (by decide)
  ⟨t.1, t.2.1, t.2.2.1.trans (by decide), by
    simp [flush, flushStore, flushCache, maxRetries, retryLoop]⟩

/-! ## Flush: retries exhausted -/

section FlushExhausted

variable {α : Type}

theorem retryLoop_counters (sink : Nat → Bool) (call : Bool → FlushEvent α) (label : String)
    (hcall : ∀ ok, batchInserts [call ok] = 0 ∧ messagesProcessed [call ok] = 0) :
    ∀ (remaining i : Nat),
      batchInserts (retryLoop sink call label remaining i) = 0
        ∧ messagesProcessed (retryLoop sink call label remaining i) = 0
  | 0, _ => by simp [retryLoop, batchInserts, messagesProcessed]
  | remaining + 1, i => by
    have ih := retryLoop_counters sink call label hcall remaining (i + 1)
    have ht := hcall true
    have hf := hcall false
    unfold retryLoop
    cases sink i
    · simp only [batchInserts, messagesProcessed, List.countP_cons, List.countP_nil,
        List.map_cons, List.map_nil, List.sum_cons, List.sum_nil] at ih hf ⊢
      simp only [Bool.false_eq_true, if_false, List.countP_cons, List.map_cons, List.sum_cons]
      omega
    · simpa using ht

end FlushExhausted

/-- C11, counterexample: a store sink that fails all three attempts of a flush is slept on
for 1 s, 2 s and 3 s, six seconds in total, not for 1 s and 2 s only. -/
theorem flush_sleeps_after_last_attempt :
    sleeps (flushStore (fun _ => false) [1, 2, 3]) = [1, 2, 3]
      ∧ sleptSeconds (flushStore (fun _ => false) [1, 2, 3]) = 6
      ∧ sleeps (flushStore (fun _ => false) [1, 2, 3]) ≠ [1, 2]
      ∧ sleptSeconds (flushStore (fun _ => false) [1, 2, 3]) ≠ 3 := by
  decide

section FlushCalls

variable {α : Type}

theorem flushStore_cacheCalls (store : Nat → Bool) (batch : List α) :
    cacheCalls (flushStore store batch) = 0 := by
  unfold flushStore maxRetries
  cases h0 : store 0 <;> cases h1 : store 1 <;> cases h2 : store 2 <;>
    simp [retryLoop, h0, h1, h2, cacheCalls]

theorem flushCache_storeCalls (cache : Nat → Bool) (batch : List α) :
    storeCalls (flushCache cache batch) = 0 := by
  unfold flushCache maxRetries
  cases h0 : cache 0 <;> cases h1 : cache 1 <;> cases h2 : cache 2 <;>
    simp [retryLoop, h0, h1, h2, storeCalls]

theorem storeCalls_flush (store cache : Nat → Bool) (batch : List α) :
    storeCalls (flush store cache batch) = storeCalls (flushStore store batch) := by
  simp [flush, storeCalls_append, flushCache_storeCalls]
  simp [storeCalls]

theorem cacheCalls_flush (store cache : Nat → Bool) (batch : List α) :
    cacheCalls (flush store cache batch) = cacheCalls (flushCache cache batch) := by
  have h := flushStore_cacheCalls store batch
  simp only [cacheCalls] at h
  simp [flush, cacheCalls, List.countP_append, h]

theorem sleeps_flush (store cache : Nat → Bool) (batch : List α) :
    sleeps (flush store cache batch)
      = sleeps (flushStore store batch) ++ sleeps (flushCache cache batch) := by
  simp [flush, sleeps, List.filterMap_append]

end FlushCalls

/-- C11, amended: in a flush each sink is attempted at least once and at most 3 times; a sink
that fails every attempt is attempted exactly 3 times, with a sleep of 1 s after the first,
2 s after the second and 3 s after the third failed attempt (6 s in total); the cache sink is
attempted right after the store loop, also when the store sink has failed all 3 attempts; and
whatever the sinks' outcomes the batch-insert counter is incremented once and the
processed-messages counter rises by the batch length. -/
theorem flush_retries_exhausted {α : Type} (store cache : Nat → Bool) (batch : List α) :
    (1 ≤ storeCalls (flush store cache batch) ∧ storeCalls (flush store cache batch) ≤ 3)
      ∧ (1 ≤ cacheCalls (flush store cache batch) ∧ cacheCalls (flush store cache batch) ≤ 3)
      ∧ ((∀ i, i < 3 → store i = false) →
          storeCalls (flush store cache batch) = 3
            ∧ sleeps (flushStore store batch) = [1, 2, 3]
            ∧ sleeps (flush store cache batch) = [1, 2, 3] ++ sleeps (flushCache cache batch)
            ∧ flush store cache batch
                = [FlushEvent.storeInsert batch false, FlushEvent.errorsInc "store_insert",
                    FlushEvent.sleep 1,
                   FlushEvent.storeInsert batch false, FlushEvent.errorsInc "store_insert",
                    FlushEvent.sleep 2,
                   FlushEvent.storeInsert batch false, FlushEvent.errorsInc "store_insert",
                    FlushEvent.sleep 3]
                  ++ flushCache cache batch
                  ++ [FlushEvent.batchInsertsInc, FlushEvent.messagesProcessedAdd batch.length]
            ∧ ∃ rest, flush store cache batch
                = [FlushEvent.storeInsert batch false, FlushEvent.errorsInc "store_insert",
                    FlushEvent.sleep 1,
                   FlushEvent.storeInsert batch false, FlushEvent.errorsInc "store_insert",
                    FlushEvent.sleep 2,
                   FlushEvent.storeInsert batch false, FlushEvent.errorsInc "store_insert",
                    FlushEvent.sleep 3,
                   FlushEvent.cacheInsert batch (cache 0)] ++ rest)
      ∧ ((∀ i, i < 3 → cache i = false) →
          cacheCalls (flush store cache batch) = 3
            ∧ sleeps (flushCache cache batch) = [1, 2, 3]
            ∧ sleeps (flush store cache batch) = sleeps (flushStore store batch) ++ [1, 2, 3]
            ∧ flush store cache batch
                = flushStore store batch
                  ++ [FlushEvent.cacheInsert batch false, FlushEvent.errorsInc "cache_insert",
                       FlushEvent.sleep 1,
                      FlushEvent.cacheInsert batch false, FlushEvent.errorsInc "cache_insert",
                       FlushEvent.sleep 2,
                      FlushEvent.cacheInsert batch false, FlushEvent.errorsInc "cache_insert",
                       FlushEvent.sleep 3]
                  ++ [FlushEvent.batchInsertsInc, FlushEvent.messagesProcessedAdd batch.length])
      ∧ ((∀ i, i < 3 → store i = false) → (∀ i, i < 3 → cache i = false) →
          flush store cache batch
              = [FlushEvent.storeInsert batch false, FlushEvent.errorsInc "store_insert",
                  FlushEvent.sleep 1,
                 FlushEvent.storeInsert batch false, FlushEvent.errorsInc "store_insert",
                  FlushEvent.sleep 2,
                 FlushEvent.storeInsert batch false, FlushEvent.errorsInc "store_insert",
                  FlushEvent.sleep 3,
                 FlushEvent.cacheInsert batch false, FlushEvent.errorsInc "cache_insert",
                  FlushEvent.sleep 1,
                 FlushEvent.cacheInsert batch false, FlushEvent.errorsInc "cache_insert",
                  FlushEvent.sleep 2,
                 FlushEvent.cacheInsert batch false, FlushEvent.errorsInc "cache_insert",
                  FlushEvent.sleep 3,
                 FlushEvent.batchInsertsInc, FlushEvent.messagesProcessedAdd batch.length]
            ∧ sleeps (flush store cache batch) = [1, 2, 3, 1, 2, 3])
      ∧ (∃ rest, flush store cache batch
          = flushStore store batch ++ FlushEvent.cacheInsert batch (cache 0) :: rest)
      ∧ batchInserts (flush store cache batch) = 1
      ∧ messagesProcessed (flush store cache batch) = batch.length := by
  have hstore : ∀ ok, batchInserts [FlushEvent.storeInsert batch ok] = 0
      ∧ messagesProcessed [FlushEvent.storeInsert batch ok] = 0 := by
    intro ok; simp [batchInserts, messagesProcessed]
  have hcache : ∀ ok, batchInserts [FlushEvent.cacheInsert batch ok] = 0
      ∧ messagesProcessed [FlushEvent.cacheInsert batch ok] = 0 := by
    intro ok; simp [batchInserts, messagesProcessed]
  have cs := retryLoop_counters store (FlushEvent.storeInsert batch) "store_insert" hstore
    maxRetries 0
  have cc := retryLoop_counters cache (FlushEvent.cacheInsert batch) "cache_insert" hcache
    maxRetries 0
  have hsfail : (∀ i, i < 3 → store i = false) →
      flushStore store batch
        = [FlushEvent.storeInsert batch false, FlushEvent.errorsInc "store_insert",
            FlushEvent.sleep 1,
           FlushEvent.storeInsert batch false, FlushEvent.errorsInc "store_insert",
            FlushEvent.sleep 2,
           FlushEvent.storeInsert batch false, FlushEvent.errorsInc "store_insert",
            FlushEvent.sleep 3] := by
    intro h
    have h0 := h 0 (by decide)
    have h1 := h 1 (by decide)
    have h2 := h 2 (by decide)
    simp [flushStore, maxRetries, retryLoop, h0, h1, h2]
  have hcfail : (∀ i, i < 3 → cache i = false) →
      flushCache cache batch
        = [FlushEvent.cacheInsert batch false, FlushEvent.errorsInc "cache_insert",
            FlushEvent.sleep 1,
           FlushEvent.cacheInsert batch false, FlushEvent.errorsInc "cache_insert",
            FlushEvent.sleep 2,
           FlushEvent.cacheInsert batch false, FlushEvent.errorsInc "cache_insert",
            FlushEvent.sleep 3] := by
    intro h
    have h0 := h 0 (by decide)
    have h1 := h 1 (by decide)
    have h2 := h 2 (by decide)
    simp [flushCache, maxRetries, retryLoop, h0, h1, h2]
  have hscalls : 1 ≤ storeCalls (flushStore store batch)
      ∧ storeCalls (flushStore store batch) ≤ 3 := by
    unfold flushStore maxRetries
    cases h0 : store 0 <;> cases h1 : store 1 <;> cases h2 : store 2 <;>
      simp [retryLoop, h0, h1, h2, storeCalls]
  have hccalls : 1 ≤ cacheCalls (flushCache cache batch)
      ∧ cacheCalls (flushCache cache batch) ≤ 3 := by
    unfold flushCache maxRetries
    cases h0 : cache 0 <;> cases h1 : cache 1 <;> cases h2 : cache 2 <;>
      simp [retryLoop, h0, h1, h2, cacheCalls]
  obtain ⟨rest, hrest, _, _⟩ := flushCache_cases cache batch
  refine ⟨?_, ?_, ?_, ?_, ?_, ?_, ?_, ?_⟩
  · rw [storeCalls_flush]; exact hscalls
  · rw [cacheCalls_flush]; exact hccalls
  · intro h
    have hs := hsfail h
    refine ⟨?_, ?_, ?_, ?_, ?_⟩
    · rw [storeCalls_flush, hs]; simp [storeCalls]
    · rw [hs]; simp [sleeps]
    · rw [sleeps_flush, hs]; simp [sleeps]
    · simp only [flush, hs]
    · exact ⟨rest ++ [FlushEvent.batchInsertsInc,
        FlushEvent.messagesProcessedAdd batch.length], by simp [flush, hs, hrest]⟩
  · intro h
    have hc := hcfail h
    refine ⟨?_, ?_, ?_, ?_⟩
    · rw [cacheCalls_flush, hc]; simp [cacheCalls]
    · rw [hc]; simp [sleeps]
    · rw [sleeps_flush, hc]; simp [sleeps]
    · simp only [flush, hc]
  · intro hs hc
    refine ⟨by simp [flush, hsfail hs, hcfail hc], ?_⟩
    rw [sleeps_flush, hsfail hs, hcfail hc]
    simp [sleeps]
  · exact ⟨rest ++ [FlushEvent.batchInsertsInc, FlushEvent.messagesProcessedAdd batch.length],
      by simp [flush, hrest]⟩
  · have e : batchInserts (flush store cache batch)
        = batchInserts (flushStore store batch) + batchInserts (flushCache cache batch) + 1 := by
      simp [flush, batchInserts, List.countP_append]
      omega
    rw [e]
    unfold flushStore flushCache
    rw [cs.1, cc.1]
  · have e : messagesProcessed (flush store cache batch)
        = messagesProcessed (flushStore store batch)
          + messagesProcessed (flushCache cache batch) + batch.length := by
      simp [flush, messagesProcessed, List.sum_append]
      omega
    rw [e]
    unfold flushStore flushCache
    rw [cs.2, cc.2]
    omega

/-- A store and a cache that both fail every attempt: the whole trace of the flush, with
three calls of each sink, sleeps of 1, 2 and 3 seconds for each, and the counters rising by 1
and by the batch length 3. -/
theorem flush_retries_exhausted_witness :
    storeCalls (flush (fun _ => false) (fun _ => false) [1, 2, 3]) = 3
      ∧ cacheCalls (flush (fun _ => false) (fun _ => false) [1, 2, 3]) = 3
      ∧ sleeps (flush (fun _ => false) (fun _ => false) [1, 2, 3]) = [1, 2, 3, 1, 2, 3]
      ∧ flush (fun _ => false) (fun _ => false) [1, 2, 3]
          = [FlushEvent.storeInsert [1, 2, 3] false, FlushEvent.errorsInc "store_insert",
              FlushEvent.sleep 1,
             FlushEvent.storeInsert [1, 2, 3] false, FlushEvent.errorsInc "store_insert",
              FlushEvent.sleep 2,
             FlushEvent.storeInsert [1, 2, 3] false, FlushEvent.errorsInc "store_insert",
              FlushEvent.sleep 3,
             FlushEvent.cacheInsert [1, 2, 3] false, FlushEvent.errorsInc "cache_insert",
              FlushEvent.sleep 1,
             FlushEvent.cacheInsert [1, 2, 3] false, FlushEvent.errorsInc "cache_insert",
              FlushEvent.sleep 2,
             FlushEvent.cacheInsert [1, 2, 3] false, FlushEvent.errorsInc "cache_insert",
              FlushEvent.sleep 3,
             FlushEvent.batchInsertsInc, FlushEvent.messagesProcessedAdd 3]
      ∧ batchInserts (flush (fun _ => false) (fun _ => false) [1, 2, 3]) = 1
      ∧ messagesProcessed (flush (fun _ => false) (fun _ => false) [1, 2, 3]) = 3 :=
  have t := flush_retries_exhausted (fun _ => false) (fun _ => false) [1, 2, 3]
  ⟨(t.2.2.1 (fun _ _ => rfl)).1, (t.2.2.2.1 (fun _ _ => rfl)).1,
    (t.2.2.2.2.1 (fun _ _ => rfl) (fun _ _ => rfl)).2,
    (t.2.2.2.2.1 (fun _ _ => rfl) (fun _ _ => rfl)).1,
    t.2.2.2.2.2.2.1, t.2.2.2.2.2.2.2⟩

/-! ## The two sinks -/

section Sinks

variable {F E : Type}

theorem nonZero_cons_zero (record : MarketData F) (rest : List (MarketData F))
    (h : record.Timestamp = 0) : nonZero (record :: rest) = nonZero rest := by
  simp [nonZero, h]

theorem nonZero_cons_ne (record : MarketData F) (rest : List (MarketData F))
    (h : record.Timestamp ≠ 0) : nonZero (record :: rest) = record :: nonZero rest := by
  simp [nonZero, h]

/-- The store loop when no `ExecContext` fails: every row of a record with a non-zero
timestamp is executed, in batch order. -/
theorem Store.insertRows_ok (marshalData : (String → Option (Value F)) → Option String)
    (exec : Nat → StoreRow → Option E) :
    ∀ (batch : List (MarketData F)) (executed : List StoreRow),
      (∀ i row, ((nonZero batch).map (specRow marshalData))[i]? = some row →
        exec (executed.length + i) row = none) →
      Store.insertRows marshalData exec batch executed
        = (executed ++ (nonZero batch).map (specRow marshalData), none)
  | [], executed, _ => by simp [Store.insertRows, nonZero]
  | record :: rest, executed, h => by
    unfold Store.insertRows
    by_cases hz : record.Timestamp = 0
    · simp only [hz, if_true]
      rw [nonZero_cons_zero record rest hz] at h ⊢
      exact Store.insertRows_ok marshalData exec rest executed h
    · simp only [hz, if_false]
      rw [nonZero_cons_ne record rest hz] at h ⊢
      have h0 := h 0 (specRow marshalData record) (by simp)
      simp only [Nat.add_zero, specRow] at h0
      simp only [h0]
      have key := Store.insertRows_ok marshalData exec rest
        (executed ++ [specRow marshalData record]) (by
          intro i row hi
          have := h (i + 1) row (by simpa using hi)
          simpa [Nat.add_assoc, Nat.add_comm 1 i] using this)
      simp only [specRow] at key
      rw [key]
      simp [specRow]

/-- The store loop when the `ExecContext` of row number `k` is the first to fail: the rows up
to and including that one are executed and its error is returned. -/
theorem Store.insertRows_fail (marshalData : (String → Option (Value F)) → Option String)
    (exec : Nat → StoreRow → Option E) (e : E) :
    ∀ (batch : List (MarketData F)) (executed : List StoreRow) (k : Nat) (bad : StoreRow),
      ((nonZero batch).map (specRow marshalData))[k]? = some bad →
      exec (executed.length + k) bad = some e →
      (∀ i row, i < k → ((nonZero batch).map (specRow marshalData))[i]? = some row →
        exec (executed.length + i) row = none) →
      Store.insertRows marshalData exec batch executed
        = (executed ++ ((nonZero batch).map (specRow marshalData)).take (k + 1), some e)
  | [], executed, k, bad, hk, _, _ => by simp [nonZero] at hk
  | record :: rest, executed, k, bad, hk, hbad, h => by
    unfold Store.insertRows
    by_cases hz : record.Timestamp = 0
    · simp only [hz, if_true]
      rw [nonZero_cons_zero record rest hz] at h hk ⊢
      exact Store.insertRows_fail marshalData exec e rest executed k bad hk hbad h
    · simp only [hz, if_false]
      rw [nonZero_cons_ne record rest hz] at h hk ⊢
      cases k with
      | zero =>
        simp only [List.map_cons, List.getElem?_cons_zero, Option.some.injEq] at hk
        subst hk
        simp only [Nat.add_zero, specRow] at hbad
        simp [hbad, specRow]
      | succ k =>
        have h0 := h 0 (specRow marshalData record) (Nat.succ_pos k) (by simp)
        simp only [Nat.add_zero, specRow] at h0
        simp only [h0]
        have key := Store.insertRows_fail marshalData exec e rest
          (executed ++ [specRow marshalData record]) k bad (by simpa using hk)
          (by simpa [Nat.add_assoc, Nat.add_comm 1 k] using hbad) (by
            intro i row hi hrow
            have := h (i + 1) row (Nat.succ_lt_succ hi) (by simpa using hrow)
            simpa [Nat.add_assoc, Nat.add_comm 1 i] using this)
        simp only [specRow] at key
        rw [key]
        simp [specRow]

/-- Whatever the database answers, the rows executed by the store loop are the rows executed
before followed by an initial part of the rows of the records with a non-zero timestamp. -/
theorem Store.insertRows_prefix (marshalData : (String → Option (Value F)) → Option String)
    (exec : Nat → StoreRow → Option E) :
    ∀ (batch : List (MarketData F)) (executed : List StoreRow),
      ∃ k, (Store.insertRows marshalData exec batch executed).1
          = executed ++ ((nonZero batch).map (specRow marshalData)).take k
        ∧ ((Store.insertRows marshalData exec batch executed).2 = none →
            (Store.insertRows marshalData exec batch executed).1
              = executed ++ (nonZero batch).map (specRow marshalData))
  | [], executed => ⟨0, by simp [Store.insertRows], by simp [Store.insertRows, nonZero]⟩
  | record :: rest, executed => by
    unfold Store.insertRows
    by_cases hz : record.Timestamp = 0
    · simp only [hz, if_true]
      rw [nonZero_cons_zero record rest hz]
      exact Store.insertRows_prefix marshalData exec rest executed
    · simp only [hz, if_false]
      rw [nonZero_cons_ne record rest hz]
      cases hx : exec executed.length
          { name := record.Name, timestamp := record.Timestamp, exchange := record.Exchange,
            data := marshalData record.Data } with
      | some e => exact ⟨1, by simp [specRow], by simp⟩
      | none =>
        obtain ⟨k, hk, hnone⟩ := Store.insertRows_prefix marshalData exec rest
          (executed ++ [specRow marshalData record])
        refine ⟨k + 1, ?_, ?_⟩
        · simpa [specRow] using hk
        · intro h
          simpa [specRow] using hnone (by simpa [specRow] using h)

/-- The pipeline of the cache sink holds one command for each record with a non-zero timestamp
that `json.Marshal` encodes, in batch order. -/
theorem CacheService.foldl_queueStep (marshal : MarketData F → Option String) (ttl : Int) :
    ∀ (batch : List (MarketData F)) (pipe : List CacheSet),
      batch.foldl (CacheService.queueStep marshal ttl) pipe
        = pipe ++ (nonZero batch).filterMap (fun record =>
            (marshal record).map (fun value =>
              ({ key := record.Name, value := value, ttl := ttl } : CacheSet)))
  | [], pipe => by simp [nonZero]
  | record :: rest, pipe => by
    rw [List.foldl_cons, CacheService.foldl_queueStep marshal ttl rest]
    unfold CacheService.queueStep
    by_cases hz : record.Timestamp = 0
    · simp only [hz, if_true]
      rw [nonZero_cons_zero record rest hz]
    · simp only [hz, if_false]
      rw [nonZero_cons_ne record rest hz]
      cases hm : marshal record with
      | none => simp [hm]
      | some value => simp [hm]

end Sinks

/-- C12, counterexample: for the one-record batch `[nanItem]` (timestamp 10, data with a NaN,
which `json.Marshal` refuses) the cache sink sets no key although the record has a non-zero
timestamp, and the row the store executes carries nil bytes and not the JSON of the data. -/
theorem insertBatch_unencodable_record :
    (nonZero [nanItem]).map MarketData.Name = ["USDSGD"]
      ∧ (CacheService.InsertBatch (none : Option String) marshalOfNaN [nanItem] 86400).1 = []
      ∧ (CacheService.InsertBatch (none : Option String) marshalOfNaN [nanItem] 86400).1.map
            CacheSet.key ≠ (nonZero [nanItem]).map MarketData.Name
      ∧ (Store.InsertBatch okStore marshalOfNaN [nanItem]).executed
          = [{ name := "USDSGD", timestamp := 10, exchange := "X", data := none }]
      ∧ (Store.InsertBatch okStore marshalOfNaN [nanItem]).err = none := by
  refine ⟨?_, ?_, ?_, ?_, ?_⟩
  · simp [nonZero, nanItem]
  · simp [CacheService.InsertBatch, CacheService.queueStep, nanItem, marshalOfNaN]
  · simp [CacheService.InsertBatch, CacheService.queueStep, nanItem, marshalOfNaN, nonZero]
  · simp [Store.InsertBatch, Store.insertRows, okStore, nanItem, marshalOfNaN]
  · simp [Store.InsertBatch, Store.insertRows, okStore, nanItem, marshalOfNaN]

/-- C12, amended: the rows executed by `Store.InsertBatch` are an initial part of the rows of
the batch's records with timestamp ≠ 0, in batch order, and all of them when no `ExecContext`
fails (row = name, timestamp, exchange and the bytes that `json.Marshal` returned for the
data, its JSON when the data can be encoded); the commands queued by
`CacheService.InsertBatch` are those of the records with timestamp ≠ 0 that `json.Marshal`
encodes, in batch order, with the record name as key,
so that the keys are the names of all records with timestamp ≠ 0 when every encoding
succeeds; no record with timestamp 0 is written to either sink; and when the store fails on
some row the call returns that error and commits no row of the batch. -/
theorem insertBatch_writes {F E : Type} (env : StoreEnv E) (pipeExec : Option E)
    (marshalData : (String → Option (Value F)) → Option String)
    (marshal : MarketData F → Option String) (batch : List (MarketData F)) (ttl : Int) :
    (∃ k, (Store.InsertBatch env marshalData batch).executed
        = ((nonZero batch).map (specRow marshalData)).take k)
      ∧ (env.beginTx = none → env.prepare = none →
          (∀ i row, ((nonZero batch).map (specRow marshalData))[i]? = some row →
            env.exec i row = none) →
          (Store.InsertBatch env marshalData batch).executed
            = (nonZero batch).map (specRow marshalData))
      ∧ ((Store.InsertBatch env marshalData batch).err = none →
          (Store.InsertBatch env marshalData batch).executed
              = (nonZero batch).map (specRow marshalData)
            ∧ (Store.InsertBatch env marshalData batch).committed
              = (nonZero batch).map (specRow marshalData))
      ∧ (∀ k bad e, env.beginTx = none → env.prepare = none →
          ((nonZero batch).map (specRow marshalData))[k]? = some bad →
          env.exec k bad = some e →
          (∀ i row, i < k → ((nonZero batch).map (specRow marshalData))[i]? = some row →
            env.exec i row = none) →
          (Store.InsertBatch env marshalData batch).err = some e
            ∧ (Store.InsertBatch env marshalData batch).committed = []
            ∧ (Store.InsertBatch env marshalData batch).executed
                = ((nonZero batch).map (specRow marshalData)).take (k + 1))
      ∧ ((Store.InsertBatch env marshalData batch).err ≠ none →
          (Store.InsertBatch env marshalData batch).committed = [])
      ∧ (∀ row ∈ (Store.InsertBatch env marshalData batch).executed, row.timestamp ≠ 0)
      ∧ (CacheService.InsertBatch pipeExec marshal batch ttl).1
          = (nonZero batch).filterMap (fun record =>
              (marshal record).map (fun value =>
                ({ key := record.Name, value := value, ttl := ttl } : CacheSet)))
      ∧ ((∀ record ∈ batch, marshal record ≠ none) →
          (CacheService.InsertBatch pipeExec marshal batch ttl).1.map CacheSet.key
            = (nonZero batch).map MarketData.Name)
      ∧ (∀ c ∈ (CacheService.InsertBatch pipeExec marshal batch ttl).1,
          ∃ record ∈ batch, record.Timestamp ≠ 0 ∧ c.key = record.Name) := by
  have hpre := Store.insertRows_prefix marshalData env.exec batch []
  obtain ⟨k, hk, hnone⟩ := hpre
  simp only [List.nil_append] at hk hnone
  have hcache : (CacheService.InsertBatch pipeExec marshal batch ttl).1
      = (nonZero batch).filterMap (fun record =>
          (marshal record).map (fun value =>
            ({ key := record.Name, value := value, ttl := ttl } : CacheSet))) := by
    simp [CacheService.InsertBatch, CacheService.foldl_queueStep]
  have hexec : ∃ k, (Store.InsertBatch env marshalData batch).executed
      = ((nonZero batch).map (specRow marshalData)).take k := by
    unfold Store.InsertBatch
    cases env.beginTx with
    | some e => exact ⟨0, by simp⟩
    | none =>
      cases env.prepare with
      | some e => exact ⟨0, by simp⟩
      | none =>
        rcases hr : Store.insertRows marshalData env.exec batch [] with ⟨ex, err⟩
        rw [hr] at hk
        simp only at hk
        cases err with
        | some e => exact ⟨k, hk⟩
        | none => cases env.commit <;> exact ⟨k, hk⟩
  refine ⟨hexec, ?_, ?_, ?_, ?_, ?_, hcache, ?_, ?_⟩
  · intro hb hp hok
    have := Store.insertRows_ok marshalData env.exec batch [] (by simpa using hok)
    simp only [Store.InsertBatch, hb, hp, this, List.nil_append]
    cases env.commit <;> rfl
  · intro herr
    unfold Store.InsertBatch at herr ⊢
    cases hb : env.beginTx with
    | some e => simp [hb] at herr
    | none =>
      cases hp : env.prepare with
      | some e => simp [hb, hp] at herr
      | none =>
        rcases hr : Store.insertRows marshalData env.exec batch [] with ⟨ex, err⟩
        rw [hr] at hnone
        simp only [hb, hp, hr] at herr ⊢
        cases err with
        | some e => simp at herr
        | none =>
          cases hc : env.commit with
          | some e => simp [hc] at herr
          | none => exact ⟨hnone rfl, hnone rfl⟩
  · intro k bad e hb hp hbad hfail hbefore
    have := Store.insertRows_fail marshalData env.exec e batch [] k bad hbad
      (by simpa using hfail) (by simpa using hbefore)
    simp [Store.InsertBatch, hb, hp, this]
  · intro herr
    unfold Store.InsertBatch at herr ⊢
    cases hb : env.beginTx with
    | some e => rfl
    | none =>
      cases hp : env.prepare with
      | some e => rfl
      | none =>
        rcases hr : Store.insertRows marshalData env.exec batch [] with ⟨ex, err⟩
        simp only [hb, hp, hr] at herr ⊢
        cases err with
        | some e => rfl
        | none =>
          cases hc : env.commit with
          | some e => rfl
          | none => simp [hc] at herr
  · intro row hrow
    obtain ⟨k', hk'⟩ := hexec
    rw [hk'] at hrow
    have hmem := List.mem_of_mem_take hrow
    obtain ⟨record, hrec, rfl⟩ := List.mem_map.1 hmem
    have : record.Timestamp ≠ 0 := by
      simpa [nonZero] using (List.mem_filter.1 hrec).2
    simpa [specRow] using this
  · intro hall
    rw [hcache]
    have hsub : ∀ l : List (MarketData F), (∀ record ∈ l, marshal record ≠ none) →
        (l.filterMap (fun record =>
            (marshal record).map (fun value =>
              ({ key := record.Name, value := value, ttl := ttl } : CacheSet)))).map
          CacheSet.key = l.map MarketData.Name := by
      intro l
      induction l with
      | nil => intro _; rfl
      | cons a l ih =>
        intro h
        have ha := h a (List.mem_cons_self _ _)
        cases hm : marshal a with
        | none => exact absurd hm ha
        | some v =>
          simp only [List.filterMap_cons, hm, Option.map_some', List.map_cons]
          rw [ih (fun r hr => h r (List.mem_cons_of_mem _ hr))]
    exact hsub _ (fun record hrec => hall record (List.mem_filter.1 hrec).1)
  · intro c hc
    rw [hcache] at hc
    obtain ⟨record, hrec, hmap⟩ := List.mem_filterMap.1 hc
    have hmemb := List.mem_filter.1 hrec
    refine ⟨record, hmemb.1, by simpa [nonZero] using hmemb.2, ?_⟩
    cases hm : marshal record with
    | none => simp [hm] at hmap
    | some v =>
      simp only [hm, Option.map_some', Option.some.injEq] at hmap
      rw [← hmap]

/-- The batch `sinkBatch` (timestamps 10, 0, 11): on a database whose second `ExecContext`
fails the call returns that error and commits nothing; on a database that answers every call
the two rows with a non-zero timestamp are committed; the cache keys are the two names. -/
theorem insertBatch_writes_witness :
    ((Store.InsertBatch failingStore marshalAny sinkBatch).err = some "pq: insert failed"
        ∧ (Store.InsertBatch failingStore marshalAny sinkBatch).committed = []
        ∧ (Store.InsertBatch failingStore marshalAny sinkBatch).executed
            = ((nonZero sinkBatch).map (specRow marshalAny)).take (1 + 1))
      ∧ (Store.InsertBatch okStore marshalAny sinkBatch).executed
          = (nonZero sinkBatch).map (specRow marshalAny)
      ∧ (nonZero sinkBatch).map (specRow marshalAny)
          = [{ name := "USDSGD", timestamp := 10, exchange := "X", data := some "{}" },
             { name := "GBPUSD", timestamp := 11, exchange := "X", data := some "{}" }]
      ∧ (CacheService.InsertBatch (none : Option String) marshalName sinkBatch 86400).1.map
            CacheSet.key = (nonZero sinkBatch).map MarketData.Name
      ∧ (nonZero sinkBatch).map MarketData.Name = ["USDSGD", "GBPUSD"] := by
  have hrows : (nonZero sinkBatch).map (specRow marshalAny)
      = [{ name := "USDSGD", timestamp := 10, exchange := "X", data := some "{}" },
         { name := "GBPUSD", timestamp := 11, exchange := "X", data := some "{}" }] := by
    simp [nonZero, sinkBatch, specRow, marshalAny, scenarioItem]
  refine ⟨?_, ?_, hrows, ?_, ?_⟩
  · refine (insertBatch_writes failingStore (none : Option String) marshalAny marshalName
      sinkBatch 86400).2.2.2.1 1
      { name := "GBPUSD", timestamp := 11, exchange := "X", data := some "{}" }
      "pq: insert failed" rfl rfl ?_ ?_ ?_
    · rw [hrows]; rfl
    · simp [failingStore]
    · intro i row hi _
      have : i = 0 := by omega
      subst this
      simp [failingStore]
  · exact (insertBatch_writes okStore (none : Option String) marshalAny marshalName
      sinkBatch 86400).2.1 rfl rfl (fun _ _ _ => rfl)
  · exact (insertBatch_writes okStore (none : Option String) marshalAny marshalName
      sinkBatch 86400).2.2.2.2.2.2.2.1 (fun _ _ => by simp [marshalName])
  · simp [nonZero, sinkBatch, scenarioItem]

/-! ## One tick of the broadcaster -/

section Broadcast

variable {F : Type} [Float64 F]

theorem writeItems_target (write : Nat → Bool) (clock : Nat → Int) (key : String)
    (client : Client F) (conn : Nat) :
    ∀ (items : List (MarketData F)) (i : Nat),
      ∀ e ∈ (writeItems write clock key client conn items i).1, e.target = (key, conn)
  | [], _, e, he => by simp [writeItems] at he
  | item :: rest, i, e, he => by
    unfold writeItems at he
    cases hw : write i with
    | true =>
      simp only [hw, if_true, List.mem_cons] at he
      rcases he with rfl | he
      · rfl
      · exact writeItems_target write clock key client conn rest (i + 1) e he
    | false =>
      simp only [hw, Bool.false_eq_true, if_false, List.mem_cons, List.mem_singleton,
        List.not_mem_nil, or_false] at he
      rcases he with rfl | rfl <;> rfl

theorem writeItems_ok (write : Nat → Bool) (clock : Nat → Int) (key : String)
    (client : Client F) (conn : Nat) :
    ∀ (items : List (MarketData F)) (i : Nat),
      (∀ j, j < items.length → write (i + j) = true) →
      writeItems write clock key client conn items i
        = ((snapshotFrames clock client items i).map (BroadcastEvent.wrote key conn), true)
  | [], _, _ => rfl
  | item :: rest, i, h => by
    have h0 : write i = true := by simpa using h 0 (by simp)
    have ih := writeItems_ok write clock key client conn rest (i + 1) (fun j hj => by
      have := h (j + 1) (by simpa using hj)
      simpa [Nat.add_assoc, Nat.add_comm 1 j] using this)
    simp only [writeItems, h0, if_true, ih, snapshotFrames, List.map_cons]

theorem writeItems_fail (write : Nat → Bool) (clock : Nat → Int) (key : String)
    (client : Client F) (conn : Nat) :
    ∀ (items : List (MarketData F)) (i k : Nat), k < items.length →
      (∀ j, j < k → write (i + j) = true) → write (i + k) = false →
      ∃ frame, writeItems write clock key client conn items i
        = (((snapshotFrames clock client items i).take k).map (BroadcastEvent.wrote key conn)
            ++ [BroadcastEvent.writeFailed key conn frame, BroadcastEvent.closed key conn],
          false)
  | [], _, k, hk, _, _ => by simp at hk
  | item :: rest, i, 0, _, _, hbad => by
    have h0 : write i = false := by simpa using hbad
    exact ⟨frameFor (clock i) client item, by simp [writeItems, h0]⟩
  | item :: rest, i, k + 1, hk, hok, hbad => by
    have h0 : write i = true := by simpa using hok 0 (Nat.succ_pos k)
    obtain ⟨frame, ih⟩ := writeItems_fail write clock key client conn rest (i + 1) k
      (by simpa using hk)
      (fun j hj => by
        have := hok (j + 1) (Nat.succ_lt_succ hj)
        simpa [Nat.add_assoc, Nat.add_comm 1 j] using this)
      (by simpa [Nat.add_assoc, Nat.add_comm 1 k] using hbad)
    exact ⟨frame, by simp [writeItems, h0, ih, snapshotFrames]⟩

theorem writeItems_kept (write : Nat → Bool) (clock : Nat → Int) (key : String)
    (client : Client F) (conn : Nat) :
    ∀ (items : List (MarketData F)) (i : Nat),
      (writeItems write clock key client conn items i).2
        = (List.range items.length).all (fun j => write (i + j))
  | [], _ => rfl
  | item :: rest, i => by
    unfold writeItems
    rw [List.length_cons, List.range_succ_eq_map, List.all_cons, List.all_map]
    cases hw : write i with
    | true =>
      simp only [if_true, Nat.add_zero, hw, Bool.true_and]
      rw [writeItems_kept write clock key client conn rest (i + 1)]
      congr 1
      funext j
      simp [Nat.add_assoc, Nat.add_comm 1 j]
    | false => simp [hw]

end Broadcast

section BroadcastLog

variable {F : Type}

theorem framesWritten_append (key : String) (conn : Nat) (s t : List (BroadcastEvent F)) :
    framesWritten key conn (s ++ t) = framesWritten key conn s ++ framesWritten key conn t := by
  simp [framesWritten]

theorem framesWritten_wrote (key : String) (conn : Nat) (frames : List (FlatMarketData F)) :
    framesWritten key conn (frames.map (BroadcastEvent.wrote key conn)) = frames := by
  induction frames with
  | nil => rfl
  | cons f fs ih =>
    simp only [framesWritten, List.map_cons, List.filterMap_cons] at ih ⊢
    simp [ih]

theorem framesWritten_other (key : String) (conn : Nat) :
    ∀ (log : List (BroadcastEvent F)), (∀ e ∈ log, e.target ≠ (key, conn)) →
      framesWritten key conn log = []
  | [], _ => rfl
  | e :: log, h => by
    have ih := framesWritten_other key conn log (fun e' he' => h e' (List.mem_cons_of_mem _ he'))
    have he := h e (List.mem_cons_self _ _)
    unfold framesWritten at ih ⊢
    cases e with
    | wrote k c f =>
      have : ¬ (k = key ∧ c = conn) := by
        rintro ⟨rfl, rfl⟩
        exact he rfl
      simp [List.filterMap_cons, this, ih]
    | writeFailed k c f => simp [List.filterMap_cons, ih]
    | closed k c => simp [List.filterMap_cons, ih]

/-- In a list without duplicates, only the events of the one element that concerns a
connection count for that connection. -/
theorem framesWritten_flatMap {α : Type} (key : String) (conn : Nat)
    (g : α → List (BroadcastEvent F)) (x0 : α) :
    ∀ (xs : List α), xs.Nodup → x0 ∈ xs →
      (∀ x ∈ xs, x ≠ x0 → ∀ e ∈ g x, e.target ≠ (key, conn)) →
      framesWritten key conn (xs.flatMap g) = framesWritten key conn (g x0)
  | [], _, h, _ => by simp at h
  | x :: xs, hnd, hmem, hother => by
    rw [List.flatMap_cons, framesWritten_append]
    have hnd' := List.nodup_cons.1 hnd
    by_cases hx : x = x0
    · subst hx
      have : framesWritten key conn (xs.flatMap g) = [] := by
        apply framesWritten_other
        intro e he
        obtain ⟨y, hy, hey⟩ := List.mem_flatMap.1 he
        have hne : y ≠ x := fun h => hnd'.1 (h ▸ hy)
        exact hother y (List.mem_cons_of_mem _ hy) hne e hey
      rw [this, List.append_nil]
    · have hhead : framesWritten key conn (g x) = [] :=
        framesWritten_other key conn _ (hother x (List.mem_cons_self _ _) hx)
      have hmem' : x0 ∈ xs := by
        rcases List.mem_cons.1 hmem with h | h
        · exact absurd h.symm hx
        · exact h
      rw [hhead, List.nil_append]
      exact framesWritten_flatMap key conn g x0 xs hnd'.2 hmem'
        (fun y hy => hother y (List.mem_cons_of_mem _ hy))

end BroadcastLog
section BroadcastLoops

variable {F : Type} [Float64 F]

/-- The connection loop: the set loses exactly the visited connections with a failed write,
and the events are those of the visited connections, in order. -/
theorem foldl_connStep (write : Nat → Nat → Bool) (clock : Nat → Nat → Int) (key : String)
    (client : Client F) (allData : List (MarketData F)) :
    ∀ (cs : List Nat) (set : List Nat) (log : List (BroadcastEvent F)),
      cs.foldl (connStep write clock key client allData) (set, log)
        = (set.filter (fun c => decide (c ∉ cs)
              || (writeItems (write c) (clock c) key client c allData 0).2),
            log ++ cs.flatMap (fun c =>
              (writeItems (write c) (clock c) key client c allData 0).1))
  | [], set, log => by simp
  | c0 :: cs, set, log => by
    have hstep : connStep write clock key client allData (set, log) c0
        = (if (writeItems (write c0) (clock c0) key client c0 allData 0).2 then set
            else set.filter (fun c => decide (c ≠ c0)),
           log ++ (writeItems (write c0) (clock c0) key client c0 allData 0).1) := rfl
    rw [List.foldl_cons, hstep, foldl_connStep write clock key client allData cs]
    refine Prod.ext ?_ (by simp)
    simp only []
    cases hok : (writeItems (write c0) (clock c0) key client c0 allData 0).2 with
    | true =>
      simp only [if_true]
      apply List.filter_congr
      intro c _
      by_cases hc : c = c0
      · subst hc; simp [hok]
      · simp [hc]
    | false =>
      simp only [Bool.false_eq_true, if_false, List.filter_filter]
      apply List.filter_congr
      intro c _
      by_cases hc : c = c0
      · subst hc; simp [hok]
      · simp [hc]

theorem serveClient_eq (write : Nat → Nat → Bool) (clock : Nat → Nat → Int) (key : String)
    (client : Client F) (allData : List (MarketData F)) :
    serveClient write clock key client allData
      = ({ client with conns := client.conns.filter (fun c =>
            allWritesOk (write c) allData.length) },
          client.conns.flatMap (fun c =>
            (writeItems (write c) (clock c) key client c allData 0).1)) := by
  unfold serveClient
  simp only []
  rw [foldl_connStep]
  refine Prod.ext ?_ (by simp)
  simp only []
  congr 1
  apply List.filter_congr
  intro c hc
  rw [writeItems_kept]
  simp [hc, allWritesOk]

theorem foldl_serveClient (write : String → Nat → Nat → Bool)
    (clock : String → Nat → Nat → Int) (allData : List (MarketData F)) :
    ∀ (registry done : Registry F) (log : List (BroadcastEvent F)),
      registry.foldl (fun acc entry =>
          let r := serveClient (write entry.1) (clock entry.1) entry.1 entry.2 allData
          (acc.1 ++ [(entry.1, r.1)], acc.2 ++ r.2)) (done, log)
        = (done ++ registry.map (fun entry =>
              (entry.1, (serveClient (write entry.1) (clock entry.1) entry.1 entry.2 allData).1)),
            log ++ registry.flatMap (fun entry =>
              (serveClient (write entry.1) (clock entry.1) entry.1 entry.2 allData).2))
  | [], done, log => by simp
  | entry :: registry, done, log => by
    rw [List.foldl_cons]
    simp only []
    rw [foldl_serveClient write clock allData registry]
    simp

theorem broadcastTick_eq (write : String → Nat → Nat → Bool)
    (clock : String → Nat → Nat → Int) (registry : Registry F) (allData : List (MarketData F)) :
    broadcastTick write clock registry allData
      = (registry.map (fun entry =>
            (entry.1, { entry.2 with conns := entry.2.conns.filter (fun c =>
              allWritesOk (write entry.1 c) allData.length) })),
          registry.flatMap (fun entry => entry.2.conns.flatMap (fun c =>
            (writeItems (write entry.1 c) (clock entry.1 c) entry.1 entry.2 c allData 0).1))) := by
  unfold broadcastTick
  rw [foldl_serveClient]
  simp only [List.nil_append, serveClient_eq]

end BroadcastLoops
section BroadcastTick

variable {F : Type} [Float64 F]

/-- The frames a tick writes to one connection are those of its own item loop. -/
theorem framesWritten_broadcastTick (write : String → Nat → Nat → Bool)
    (clock : String → Nat → Nat → Int) (registry : Registry F) (allData : List (MarketData F))
    (key : String) (client : Client F) (conn : Nat)
    (hkeys : (registry.map Prod.fst).Nodup) (hmem : (key, client) ∈ registry)
    (hconns : client.conns.Nodup) (hconn : conn ∈ client.conns) :
    framesWritten key conn (broadcastTick write clock registry allData).2
      = framesWritten key conn
          (writeItems (write key conn) (clock key conn) key client conn allData 0).1 := by
  rw [broadcastTick_eq]
  simp only []
  rw [framesWritten_flatMap key conn _ (key, client) registry (List.Nodup.of_map _ hkeys) hmem]
  · simp only []
    rw [framesWritten_flatMap key conn _ conn client.conns hconns hconn]
    intro c _ hne e he heq
    have := writeItems_target _ _ _ _ _ _ _ e he
    rw [this] at heq
    exact hne (Prod.mk.inj heq).2
  · intro entry hentry hne e he heq
    obtain ⟨c, _, hec⟩ := List.mem_flatMap.1 he
    have := writeItems_target _ _ _ _ _ _ _ e hec
    rw [this] at heq
    have hk : entry.1 = key := (Prod.mk.inj heq).1
    exact hne (List.inj_on_of_nodup_map hkeys hentry hmem hk)

theorem allWritesOk_iff (write : Nat → Bool) (n : Nat) :
    allWritesOk write n = true ↔ ∀ j, j < n → write j = true := by
  simp [allWritesOk, List.all_eq_true]

end BroadcastTick

section ExpectedFrames

variable {F : Type} [Float64 F]

theorem frameFor_eq_expectedFrame (now : Int) (client : Client F) (item : MarketData F) :
    frameFor now client item = expectedFrame now client item := by
  unfold frameFor expectedFrame tenantTransform
  cases hc : client.Config with
  | none => rfl
  | some config =>
    cases hs : config.Symbols with
    | none => simp [hs]
    | some symbols =>
      cases hx : symbols item.Name with
      | none => simp [hs, hx]
      | some cfg => simp [hs, hx]

theorem snapshotFrames_eq_expectedFrames (clock : Nat → Int) (client : Client F) :
    ∀ (items : List (MarketData F)) (i : Nat),
      snapshotFrames clock client items i = expectedFrames clock client items i
  | [], _ => rfl
  | item :: rest, i => by
    simp only [snapshotFrames, expectedFrames, frameFor_eq_expectedFrame,
      snapshotFrames_eq_expectedFrames clock client rest (i + 1)]

end ExpectedFrames

/-- The frame of the scenario item under the scenario config, in closed form. -/
theorem scenario_frame (now : Int) :
    transformFlat now (normalizeMarketData scenarioItem) scenarioConfig = scenarioExpected := by
  funext k
  simp only [transformFlat, scenarioConfig, GoMap.single, List.foldl_cons, List.foldl_nil]
  by_cases h1 : k = "venue"
  · subst h1
    simp [overrideStep, removeStep, renameStep, valueRuleStep, Value.eqString,
      FlatMarketData.set, FlatMarketData.delete, scenarioExpected, FlatMarketData.ofList,
      List.lookup]
  by_cases h2 : k = "exchange"
  · subst h2
    simp [overrideStep, removeStep, renameStep, valueRuleStep, Value.eqString,
      FlatMarketData.set, FlatMarketData.delete, scenarioExpected, FlatMarketData.ofList,
      List.lookup]
  by_cases h3 : k = "r2"
  · subst h3
    simp [overrideStep, removeStep, renameStep, valueRuleStep, Value.eqString,
      FlatMarketData.set, FlatMarketData.delete, FlatMarketData.copy, FlatMarketData.empty,
      scenarioExpected, FlatMarketData.ofList, List.lookup, normalizeMarketData, scenarioItem]
  by_cases h4 : k = "raw"
  · subst h4
    simp [overrideStep, removeStep, renameStep, valueRuleStep, Value.eqString,
      FlatMarketData.set, FlatMarketData.delete, FlatMarketData.copy, FlatMarketData.empty,
      scenarioExpected, FlatMarketData.ofList, List.lookup, normalizeMarketData, scenarioItem]
  by_cases h5 : k = "bid"
  · subst h5
    simp [overrideStep, removeStep, renameStep, valueRuleStep, Value.eqString,
      FlatMarketData.set, FlatMarketData.delete, FlatMarketData.copy, FlatMarketData.empty,
      scenarioExpected, FlatMarketData.ofList, List.lookup, normalizeMarketData, scenarioItem,
      applyValueRule]
    norm_num
  by_cases h6 : k = "symbol"
  · subst h6
    simp [overrideStep, removeStep, renameStep, valueRuleStep, Value.eqString,
      FlatMarketData.set, FlatMarketData.delete, FlatMarketData.copy, FlatMarketData.empty,
      scenarioExpected, FlatMarketData.ofList, List.lookup, normalizeMarketData, scenarioItem]
  by_cases h7 : k = "timestamp"
  · subst h7
    simp [overrideStep, removeStep, renameStep, valueRuleStep, Value.eqString,
      FlatMarketData.set, FlatMarketData.delete, FlatMarketData.copy, FlatMarketData.empty,
      scenarioExpected, FlatMarketData.ofList, List.lookup, normalizeMarketData, scenarioItem]
  have b1 : (k == "venue") = false := by simpa using h1
  have b3 : (k == "r2") = false := by simpa using h3
  have b4 : (k == "raw") = false := by simpa using h4
  have b5 : (k == "bid") = false := by simpa using h5
  have b6 : (k == "symbol") = false := by simpa using h6
  have b7 : (k == "timestamp") = false := by simpa using h7
  simp [overrideStep, removeStep, renameStep, valueRuleStep, Value.eqString,
    FlatMarketData.set, FlatMarketData.delete, FlatMarketData.copy, FlatMarketData.empty,
    scenarioExpected, FlatMarketData.ofList, List.lookup, normalizeMarketData, scenarioItem,
    h1, h2, h3, h4, h5, h6, h7, b1, b3, b4, b5, b6, b7]

/-- The second snapshot item normalized, in closed form. -/
theorem eurusd_frame :
    normalizeMarketData ({ scenarioItem with Name := "EURUSD", Timestamp := 11 } : MarketData ℚ)
      = eurusdExpected := by
  funext k
  by_cases h1 : k = "exchange"
  · subst h1
    simp [normalizeMarketData, scenarioItem, FlatMarketData.set, eurusdExpected,
      FlatMarketData.ofList, List.lookup]
  by_cases h2 : k = "timestamp"
  · subst h2
    simp [normalizeMarketData, scenarioItem, FlatMarketData.set, eurusdExpected,
      FlatMarketData.ofList, List.lookup]
  by_cases h3 : k = "symbol"
  · subst h3
    simp [normalizeMarketData, scenarioItem, FlatMarketData.set, eurusdExpected,
      FlatMarketData.ofList, List.lookup]
  have b1 : (k == "exchange") = false := by simpa using h1
  have b2 : (k == "timestamp") = false := by simpa using h2
  have b3 : (k == "symbol") = false := by simpa using h3
  simp only [normalizeMarketData, scenarioItem, FlatMarketData.set, eurusdExpected,
    FlatMarketData.ofList, List.lookup, h1, h2, h3, b1, b2, b3, if_false,
    FlatMarketData.copy, FlatMarketData.empty, beq_self_eq_true]
  by_cases h4 : k = "bid"
  · subst h4; simp
  by_cases h5 : k = "raw"
  · subst h5; simp
  have b4 : (k == "bid") = false := by simpa using h4
  have b5 : (k == "raw") = false := by simpa using h5
  simp [b4, b5]

/-- C13: one tick of the broadcaster over a registry with distinct client ids, a snapshot
`allData` and a per-write oracle.  For a connection `conn` of the client under `key`: when its
first failing write is for item number `i`, it was written the frames of the items before `i`
in snapshot order and no other frame, it is closed, and it is no longer in the client's
connection set; when none of its writes fails it is written one frame per item in snapshot
order and stays in the set.  The frame of an item is the normalized item, transformed by the
tenant's config for the item's symbol when there is one.  The tick removes no entry from the
registry, keeps every client's id and config, and changes a client's connection set only by
removing that client's own connections with a failed write. -/
theorem broadcastTick_isolates {F : Type} [Float64 F] (write : String → Nat → Nat → Bool)
    (clock : String → Nat → Nat → Int) (registry : Registry F) (allData : List (MarketData F))
    (key : String) (client : Client F) (conn : Nat)
    (hkeys : (registry.map Prod.fst).Nodup) (hmem : (key, client) ∈ registry)
    (hconns : client.conns.Nodup) (hconn : conn ∈ client.conns) :
    (∀ i, i < allData.length → (∀ j, j < i → write key conn j = true) →
        write key conn i = false →
        framesWritten key conn (broadcastTick write clock registry allData).2
            = (expectedFrames (clock key conn) client allData 0).take i
          ∧ BroadcastEvent.closed key conn ∈ (broadcastTick write clock registry allData).2
          ∧ ∀ client', (key, client') ∈ (broadcastTick write clock registry allData).1 →
              conn ∉ client'.conns)
      ∧ ((∀ j, j < allData.length → write key conn j = true) →
        framesWritten key conn (broadcastTick write clock registry allData).2
            = expectedFrames (clock key conn) client allData 0
          ∧ ∀ client', (key, client') ∈ (broadcastTick write clock registry allData).1 →
              conn ∈ client'.conns)
      ∧ (∀ j item, allData[j]? = some item →
          (expectedFrames (clock key conn) client allData 0)[j]?
            = some (match tenantTransform client item.Name with
                | some cfg => transformFlat (clock key conn j) (normalizeMarketData item) cfg
                | none => normalizeMarketData item))
      ∧ (broadcastTick write clock registry allData).1.map (fun entry =>
            (entry.1, entry.2.ID, entry.2.Config))
          = registry.map (fun entry => (entry.1, entry.2.ID, entry.2.Config))
      ∧ (broadcastTick write clock registry allData).1
          = registry.map (fun entry =>
              (entry.1, { entry.2 with conns := entry.2.conns.filter (fun c =>
                allWritesOk (write entry.1 c) allData.length) })) := by
  have hreg : (broadcastTick write clock registry allData).1
      = registry.map (fun entry =>
          (entry.1, { entry.2 with conns := entry.2.conns.filter (fun c =>
            allWritesOk (write entry.1 c) allData.length) })) := by
    rw [broadcastTick_eq]
  have hframes := framesWritten_broadcastTick write clock registry allData key client conn
    hkeys hmem hconns hconn
  have hentry : ∀ client', (key, client') ∈ (broadcastTick write clock registry allData).1 →
      client'.conns = client.conns.filter (fun c =>
        allWritesOk (write key c) allData.length) := by
    intro client' h
    rw [hreg] at h
    obtain ⟨entry, he, heq⟩ := List.mem_map.1 h
    have hk : entry.1 = key := (Prod.mk.inj heq).1
    have : entry = (key, client) := List.inj_on_of_nodup_map hkeys he hmem hk
    subst this
    rw [← (Prod.mk.inj heq).2]
  have hget : ∀ (items : List (MarketData F)) (i j : Nat) (item : MarketData F),
      items[j]? = some item →
      (expectedFrames (clock key conn) client items i)[j]?
        = some (match tenantTransform client item.Name with
            | some cfg => transformFlat (clock key conn (i + j)) (normalizeMarketData item) cfg
            | none => normalizeMarketData item) := by
    intro items
    induction items with
    | nil => intro i j item h; simp at h
    | cons a rest ih =>
      intro i j item h
      cases j with
      | zero =>
        simp only [List.getElem?_cons_zero, Option.some.injEq] at h
        subst h
        simp [expectedFrames, expectedFrame]
      | succ j =>
        simp only [List.getElem?_cons_succ] at h
        have := ih (i + 1) j item h
        simp only [expectedFrames, List.getElem?_cons_succ, this]
        simp [Nat.add_assoc, Nat.add_comm 1 j]
  refine ⟨?_, ?_, ?_, ?_, hreg⟩
  · intro i hi hok hbad
    obtain ⟨frame, hw⟩ := writeItems_fail (write key conn) (clock key conn) key client conn
      allData 0 i hi (by simpa using hok) (by simpa using hbad)
    refine ⟨?_, ?_, ?_⟩
    · rw [hframes, hw]
      simp only []
      rw [framesWritten_append, framesWritten_wrote, snapshotFrames_eq_expectedFrames]
      simp [framesWritten]
    · rw [broadcastTick_eq]
      simp only [List.mem_flatMap]
      exact ⟨(key, client), hmem, conn, hconn, by rw [hw]; simp⟩
    · intro client' h hc
      rw [hentry client' h] at hc
      have hall := (List.mem_filter.1 hc).2
      have := (allWritesOk_iff _ _).1 hall i hi
      rw [hbad] at this
      cases this
  · intro hok
    refine ⟨?_, ?_⟩
    · rw [hframes, writeItems_ok (write key conn) (clock key conn) key client conn allData 0
        (by simpa using hok), ← snapshotFrames_eq_expectedFrames]
      exact framesWritten_wrote key conn _
    · intro client' h
      rw [hentry client' h]
      exact List.mem_filter.2 ⟨hconn, (allWritesOk_iff _ _).2 hok⟩
  · intro j item h
    simpa using hget allData 0 j item h
  · rw [hreg, List.map_map]
    rfl

/-- A tenant with connections `A = 1` and `B = 2` and the scenario config for "USDSGD", over a
snapshot of two items.  When every write on `A` fails, `A` gets no frame and is removed, `B`
gets the two frames `{symbol "USDSGD", timestamp 10, bid 2.5, r2 "r", venue "Z"}` and
`{symbol "EURUSD", timestamp 11, exchange "X", bid 1.25, raw "r"}`, and the tenant's entry
(and the other client's) remains in the registry.  When only the second write on `A` fails,
`A` gets the first frame and nothing more, and is removed. -/
theorem broadcastTick_isolates_witness :
    framesWritten "tenant" 1 (broadcastTick writeFailsOnA tickClock tickRegistry tickSnapshot).2
        = []
      ∧ (∀ client', ("tenant", client')
            ∈ (broadcastTick writeFailsOnA tickClock tickRegistry tickSnapshot).1 →
          1 ∉ client'.conns)
      ∧ framesWritten "tenant" 2
          (broadcastTick writeFailsOnA tickClock tickRegistry tickSnapshot).2
        = [scenarioExpected, eurusdExpected]
      ∧ (∀ client', ("tenant", client')
            ∈ (broadcastTick writeFailsOnA tickClock tickRegistry tickSnapshot).1 →
          2 ∈ client'.conns)
      ∧ (broadcastTick writeFailsOnA tickClock tickRegistry tickSnapshot).1
          = [("tenant", { tenantClient with conns := [2] }),
             ("other", { ID := "other", conns := [3], Config := none })]
      ∧ framesWritten "tenant" 1
          (broadcastTick writeFailsOnASecond tickClock tickRegistry tickSnapshot).2
        = [scenarioExpected]
      ∧ (∀ client', ("tenant", client')
            ∈ (broadcastTick writeFailsOnASecond tickClock tickRegistry tickSnapshot).1 →
          1 ∉ client'.conns) := by
  have hkeys : (tickRegistry.map Prod.fst).Nodup := by decide
  have hmem : ("tenant", tenantClient) ∈ tickRegistry := by simp [tickRegistry]
  have hconns : tenantClient.conns.Nodup := by decide
  have hexp : ∀ c, expectedFrames (tickClock "tenant" c) tenantClient tickSnapshot 0
      = [scenarioExpected, eurusdExpected] := by
    intro c
    have h1 : tenantTransform tenantClient "USDSGD" = some scenarioConfig := by
      simp [tenantTransform, tenantClient]
    have h2 : tenantTransform tenantClient "EURUSD" = none := by
      simp [tenantTransform, tenantClient]
    have e1 : expectedFrame (tickClock "tenant" c 0) tenantClient scenarioItem
        = scenarioExpected := by
      have hn : scenarioItem.Name = "USDSGD" := rfl
      simp only [expectedFrame, hn, h1]
      exact scenario_frame _
    have e2 : expectedFrame (tickClock "tenant" c (0 + 1)) tenantClient
        ({ scenarioItem with Name := "EURUSD", Timestamp := 11 } : MarketData ℚ)
        = eurusdExpected := by
      simp only [expectedFrame, h2]
      exact eurusd_frame
    simp only [tickSnapshot, expectedFrames, e1, e2]
  have tA := broadcastTick_isolates writeFailsOnA tickClock tickRegistry tickSnapshot
    "tenant" tenantClient 1 hkeys hmem hconns (by decide)
  have tB := broadcastTick_isolates writeFailsOnA tickClock tickRegistry tickSnapshot
    "tenant" tenantClient 2 hkeys hmem hconns (by decide)
  have tA2 := broadcastTick_isolates writeFailsOnASecond tickClock tickRegistry tickSnapshot
    "tenant" tenantClient 1 hkeys hmem hconns (by decide)
  have hA := tA.1 0 (by decide) (fun j hj => absurd hj (Nat.not_lt_zero j)) (by decide)
  have hB := tB.2.1 (fun _ _ => by simp [writeFailsOnA])
  have hA2 := tA2.1 1 (by decide) (fun j hj => by
    have : j = 0 := by omega
    subst this
    decide) (by decide)
  refine ⟨?_, hA.2.2, ?_, hB.2, ?_, ?_, hA2.2.2⟩
  · rw [hA.1]; rfl
  · rw [hB.1, hexp]
  · rw [tB.2.2.2.2]
    simp [tickRegistry, tenantClient, tickSnapshot, allWritesOk, writeFailsOnA, List.range_succ]
  · rw [hA2.1, hexp]; rfl

/-! ## Value rules on the egress path -/

/-- Normalization as an overlay, for use in the proofs below. -/
theorem normalize_overlay {F : Type} (item : MarketData F) :
    normalizeMarketData item
      = overlayIdentity (innerData item) item.Name item.Timestamp item.Exchange := by
  funext k
  unfold normalizeMarketData innerData overlayIdentity
  by_cases h1 : k = "exchange"
  · subst h1; simp [FlatMarketData.set]
  by_cases h2 : k = "timestamp"
  · subst h2; simp [FlatMarketData.set]
  by_cases h3 : k = "symbol"
  · subst h3; simp [FlatMarketData.set]
  simp only [FlatMarketData.set, h1, h2, h3, if_false]
  cases hd : item.Data "data" with
  | none => rfl
  | some v =>
    cases v <;> simp [FlatMarketData.copy, FlatMarketData.empty]
    rename_i inner
    cases inner k <;> rfl

/-- C14, counterexample: normalization writes the scenario item's `timestamp` as the integer
10, and the value rule `timestamp: {op: add, value: 5}` leaves it at the integer 10; it does
not become 15. -/
theorem value_rule_skips_timestamp :
    normalizeMarketData scenarioItem "timestamp" = some (Value.int64 10)
      ∧ transformFlat 0 (normalizeMarketData scenarioItem) timestampRuleConfig "timestamp"
          = some (Value.int64 10)
      ∧ transformFlat 0 (normalizeMarketData scenarioItem) timestampRuleConfig "timestamp"
          ≠ some (Value.int64 (10 + 5))
      ∧ transformFlat 0 (normalizeMarketData scenarioItem) timestampRuleConfig "timestamp"
          ≠ some (Value.float64 (10 + 5)) := by
  have h1 : normalizeMarketData scenarioItem "timestamp" = some (Value.int64 10) := by
    simp [normalizeMarketData, scenarioItem, FlatMarketData.set]
  have h2 : transformFlat 0 (normalizeMarketData scenarioItem) timestampRuleConfig "timestamp"
      = some (Value.int64 10) := by
    simp [transformFlat, timestampRuleConfig, GoMap.single, GoMap.empty, valueRuleStep, h1]
  refine ⟨h1, h2, ?_, ?_⟩
  · rw [h2]
    intro h
    have := Value.int64.inj (Option.some.inj h)
    omega
  · rw [h2]
    intro h
    cases Option.some.inj h

/-- C14, amended: on the egress path, with a config that has only value rules, a rule
`(f, {op, v})` on a field `f` of the flat map that holds a `float64` `x` (these fields are the
numeric entries copied from the inner data block under names other than `symbol`, `timestamp`
and `exchange`) replaces `x` by `x + v` for add, `x - v` for subtract, `x * v` for multiply
and `x / v` for divide with `v ≠ 0`; a field that is missing or holds no `float64` is left as
it is, and this includes `timestamp`, which normalization writes as an integer; a rule whose
op is none of the four returns `x`; and when every rule is on such a field or has such an op
the map is unchanged. -/
theorem value_rules_on_egress {F : Type} [Float64 F] (now : Int) (item : MarketData F)
    (cfg : SymbolConfig F) (honly : OnlyValueRules cfg) :
    (∀ x v : F,
        applyValueRule x { Op := "add", Value := v } = x + v
          ∧ applyValueRule x { Op := "subtract", Value := v } = x - v
          ∧ applyValueRule x { Op := "multiply", Value := v } = x * v
          ∧ (Float64.neZero v = true → applyValueRule x { Op := "divide", Value := v } = x / v))
      ∧ (∀ (x : F) (rule : ValueRule F), ¬ KnownOp rule.Op → applyValueRule x rule = x)
      ∧ (∀ f x, normalizeMarketData item f = some (Value.float64 x) ↔
          (f ≠ "symbol" ∧ f ≠ "timestamp" ∧ f ≠ "exchange"
            ∧ innerData item f = some (Value.float64 x)))
      ∧ (∀ f rule x, (f, rule) ∈ cfg.ValueRules.entries →
          normalizeMarketData item f = some (Value.float64 x) →
          transformFlat now (normalizeMarketData item) cfg f
            = some (Value.float64 (applyValueRule x rule)))
      ∧ (∀ f, (∀ x, normalizeMarketData item f ≠ some (Value.float64 x)) →
          transformFlat now (normalizeMarketData item) cfg f = normalizeMarketData item f)
      ∧ (∀ f, cfg.ValueRules.get f = none →
          transformFlat now (normalizeMarketData item) cfg f = normalizeMarketData item f)
      ∧ transformFlat now (normalizeMarketData item) cfg "timestamp"
          = some (Value.int64 item.Timestamp)
      ∧ ((∀ e ∈ cfg.ValueRules.entries,
            (∀ x, normalizeMarketData item e.1 ≠ some (Value.float64 x)) ∨ ¬ KnownOp e.2.Op) →
          transformFlat now (normalizeMarketData item) cfg = normalizeMarketData item) := by
  obtain ⟨hren, hov, hrem⟩ := honly
  have key : ∀ (m : FlatMarketData F) (k : String),
      transformFlat now m cfg k
        = match m k, cfg.ValueRules.entries.lookup k with
          | some (Value.float64 x), some r => some (Value.float64 (applyValueRule x r))
          | v, _ => v := by
    intro m k
    simp only [transformFlat, hren, hov, hrem, List.foldl_nil]
    exact foldl_valueRuleStep _ cfg.ValueRules.nodup m k
  have hnorm := normalize_overlay item
  have hunknown : ∀ (x : F) (rule : ValueRule F), ¬ KnownOp rule.Op →
      applyValueRule x rule = x := by
    intro x rule h
    have h1 : rule.Op ≠ "add" := fun e => h (Or.inl e)
    have h2 : rule.Op ≠ "subtract" := fun e => h (Or.inr (Or.inl e))
    have h3 : rule.Op ≠ "multiply" := fun e => h (Or.inr (Or.inr (Or.inl e)))
    have h4 : rule.Op ≠ "divide" := fun e => h (Or.inr (Or.inr (Or.inr e)))
    simp [applyValueRule, h1, h2, h3, h4]
  have hts : normalizeMarketData item "timestamp" = some (Value.int64 item.Timestamp) := by
    rw [hnorm]; simp [overlayIdentity]
  have hnofloat : ∀ f, (∀ x, normalizeMarketData item f ≠ some (Value.float64 x)) →
      transformFlat now (normalizeMarketData item) cfg f = normalizeMarketData item f := by
    intro f hf
    rw [key]
    cases hm : normalizeMarketData item f with
    | none => rfl
    | some v =>
      cases v with
      | float64 x => exact absurd hm (hf x)
      | _ => rfl
  refine ⟨?_, hunknown, ?_, ?_, hnofloat, ?_, ?_, ?_⟩
  · intro x v
    refine ⟨by simp [applyValueRule], by simp [applyValueRule], by simp [applyValueRule], ?_⟩
    intro hv
    simp [applyValueRule, hv]
  · intro f x
    rw [hnorm]
    unfold overlayIdentity
    by_cases h1 : f = "symbol"
    · simp [h1]
    by_cases h2 : f = "timestamp"
    · simp [h2]
    by_cases h3 : f = "exchange"
    · simp [h3]
    simp [h1, h2, h3]
  · intro f rule x hmem hx
    rw [key, hx, lookup_eq_some_of_mem f rule _ cfg.ValueRules.nodup hmem]
  · intro f hget
    rw [key]
    unfold GoMap.get at hget
    rw [hget]
    cases hm : normalizeMarketData item f with
    | none => rfl
    | some v => cases v <;> rfl
  · rw [hnofloat "timestamp" (fun x h => by rw [hts] at h; cases h), hts]
  · intro hall
    funext k
    rw [key]
    cases hm : normalizeMarketData item k with
    | none => rfl
    | some v =>
      cases v with
      | float64 x =>
        cases hl : cfg.ValueRules.entries.lookup k with
        | none => rfl
        | some r =>
          have hmem := mem_of_lookup_eq_some k r _ hl
          rcases hall (k, r) hmem with h | h
          · exact absurd hm (h x)
          · simp only [hunknown x r h]
      | _ => rfl

/-- The rule `bid: {op: divide, value: 2}` on the scenario item, whose inner block has
`bid = 1.25`: the flat map gets `bid = 1.25 / 2`, and `timestamp` stays the integer 10. -/
theorem value_rules_on_egress_witness :
    OnlyValueRules bidRuleConfig
      ∧ normalizeMarketData scenarioItem "bid" = some (Value.float64 (5 / 4))
      ∧ transformFlat 0 (normalizeMarketData scenarioItem) bidRuleConfig "bid"
          = some (Value.float64 (applyValueRule (5 / 4 : ℚ) { Op := "divide", Value := 2 }))
      ∧ applyValueRule (5 / 4 : ℚ) { Op := "divide", Value := 2 } = 5 / 4 / 2
      ∧ transformFlat 0 (normalizeMarketData scenarioItem) bidRuleConfig "timestamp"
          = some (Value.int64 10) := by
  have honly : OnlyValueRules bidRuleConfig := by
    simp [OnlyValueRules, bidRuleConfig, GoMap.empty]
  have hbid : normalizeMarketData scenarioItem "bid" = some (Value.float64 (5 / 4)) := by
    simp [normalizeMarketData, scenarioItem, FlatMarketData.set, FlatMarketData.copy,
      FlatMarketData.empty, FlatMarketData.ofList, List.lookup]
  have t := value_rules_on_egress 0 scenarioItem bidRuleConfig honly
  refine ⟨honly, hbid, ?_, ?_, t.2.2.2.2.2.2.1⟩
  · exact t.2.2.2.1 "bid" { Op := "divide", Value := 2 } (5 / 4)
      (by simp [bidRuleConfig, GoMap.single]) hbid
  · exact (t.1 (5 / 4) 2).2.2.2 (by simp [Float64.neZero])

/-! ## The registry -/

section RegistryLemmas

variable {F : Type}

theorem Registry.Load_append_single (id k : String) (client : Client F) :
    ∀ (registry : Registry F),
      Registry.Load (registry ++ [(id, client)]) k
        = match Registry.Load registry k with
          | some c => some c
          | none => if k = id then some client else none
  | [] => by
    by_cases h : k = id
    · subst h; simp [Registry.Load, List.lookup]
    · have : (k == id) = false := by simpa using h
      simp [Registry.Load, List.lookup, this, h]
  | (k0, c0) :: registry => by
    have ih := Registry.Load_append_single id k client registry
    unfold Registry.Load at ih ⊢
    rw [List.cons_append, List.lookup_cons, List.lookup_cons]
    cases hk : (k == k0) with
    | true => rfl
    | false => exact ih

end RegistryLemmas

/-- C15: `getOrCreateClient` in a sequential model of the registry.  When an entry for `id`
exists it is returned and the registry (so the entry, its connection set and its config) is
unchanged, the new config being discarded; when none exists a new client with `ID = id`, the
given config and an empty connection set is stored under `id` and returned, and every other
entry is unchanged; the registry keeps at most one client per id; and a second call with the
same id returns the same client and leaves the registry as the first call left it. -/
theorem getOrCreateClient_spec {F : Type} (registry : Registry F) (id : String)
    (cfg cfg' : Option (ClientConfig F)) :
    (∀ existing, Registry.Load registry id = some existing →
        getOrCreateClient registry id cfg = (registry, existing))
      ∧ (Registry.Load registry id = none →
          getOrCreateClient registry id cfg
              = (registry ++ [(id, { ID := id, conns := [], Config := cfg })],
                 { ID := id, conns := [], Config := cfg })
            ∧ Registry.Load (getOrCreateClient registry id cfg).1 id
                = some { ID := id, conns := [], Config := cfg }
            ∧ ∀ k, k ≠ id →
                Registry.Load (getOrCreateClient registry id cfg).1 k = Registry.Load registry k)
      ∧ Registry.Load (getOrCreateClient registry id cfg).1 id
          = some (getOrCreateClient registry id cfg).2
      ∧ ((registry.map Prod.fst).Nodup →
          ((getOrCreateClient registry id cfg).1.map Prod.fst).Nodup)
      ∧ getOrCreateClient (getOrCreateClient registry id cfg).1 id cfg'
          = ((getOrCreateClient registry id cfg).1, (getOrCreateClient registry id cfg).2) := by
  have hsome : ∀ (r : Registry F) (c : Option (ClientConfig F)) existing,
      Registry.Load r id = some existing → getOrCreateClient r id c = (r, existing) := by
    intro r c existing h
    simp [getOrCreateClient, h]
  have hnone : Registry.Load registry id = none →
      getOrCreateClient registry id cfg
        = (registry ++ [(id, { ID := id, conns := [], Config := cfg })],
           { ID := id, conns := [], Config := cfg }) := by
    intro h
    simp [getOrCreateClient, Registry.LoadOrStore, h]
  have hload : Registry.Load (getOrCreateClient registry id cfg).1 id
      = some (getOrCreateClient registry id cfg).2 := by
    cases h : Registry.Load registry id with
    | some existing => rw [hsome registry cfg existing h]; exact h
    | none =>
      rw [hnone h]
      simp only []
      rw [Registry.Load_append_single, h]
      simp
  refine ⟨hsome registry cfg, ?_, hload, ?_, ?_⟩
  · intro h
    refine ⟨hnone h, by rw [hload, hnone h], ?_⟩
    intro k hk
    rw [hnone h]
    simp only []
    rw [Registry.Load_append_single]
    cases Registry.Load registry k with
    | some c => rfl
    | none => simp [hk]
  · intro hnd
    cases h : Registry.Load registry id with
    | some existing => rw [hsome registry cfg existing h]; exact hnd
    | none =>
      rw [hnone h]
      simp only [List.map_append, List.map_cons, List.map_nil]
      refine List.Nodup.append hnd (List.nodup_singleton _) ?_
      intro k hk hk'
      simp only [List.mem_singleton] at hk'
      subst hk'
      obtain ⟨entry, hentry, rfl⟩ := List.mem_map.1 hk
      have : Registry.Load registry entry.1 ≠ none := by
        clear h hload hnone hnd hk
        induction registry with
        | nil => simp at hentry
        | cons e r ih =>
          unfold Registry.Load
          rw [List.lookup_cons]
          cases hb : (entry.1 == e.1) with
          | true => simp
          | false =>
            rcases List.mem_cons.1 hentry with he | he
            · subst he; simp at hb
            · exact ih he
      exact this h
  · exact hsome _ cfg' _ hload

/-- On the registry `tickRegistry`: a call for the existing id "tenant" with no config
returns the stored client, config included, and leaves the registry as it is; a call for the
new id "fresh" appends a client with no connection. -/
theorem getOrCreateClient_spec_witness :
    getOrCreateClient tickRegistry "tenant" none = (tickRegistry, tenantClient)
      ∧ getOrCreateClient tickRegistry "fresh" none
          = (tickRegistry ++ [("fresh", { ID := "fresh", conns := [], Config := none })],
             { ID := "fresh", conns := [], Config := none })
      ∧ getOrCreateClient (getOrCreateClient tickRegistry "fresh" none).1 "fresh"
            tenantClient.Config
          = ((getOrCreateClient tickRegistry "fresh" none).1,
             (getOrCreateClient tickRegistry "fresh" none).2) :=
  ⟨(getOrCreateClient_spec tickRegistry "tenant" none none).1 tenantClient
      (by simp [Registry.Load, tickRegistry, List.lookup]),
    ((getOrCreateClient_spec tickRegistry "fresh" none none).2.1
      (by simp [Registry.Load, tickRegistry, List.lookup])).1,
    (getOrCreateClient_spec tickRegistry "fresh" none tenantClient.Config).2.2.2.2⟩

end MarketDataIngestor
